import Mathlib

/-! # Flag descriptors and their registration (`internal/cli/internal/flag/flag.go`)

The Go package `flag` declares four descriptor types (`Bool`, `String`, `Int`,
`StringSlice`), an `addTo` method on each of them and the batch operation `Add`.
Every `addTo` forwards to the flag registry of the command (`cobra.Command`,
`pflag.FlagSet`).  The development below embeds

* the part of the registry the package calls (namespaces `pflag` and `cobra`),
* the package itself (namespace `flag`),

and then proves the properties of the registration layer.

Go values are embedded as follows: `string` is a Lean `String` (so only valid
UTF-8 text), `bool` is `Bool`, `int` is `Int` (no arithmetic is performed on it),
`[]string` is `List String`, a `map` is an association list in which the first
entry of a key counts, a `*Flag` is an index into the list of `Flag` objects owned
by the flag set, and a `nil` pointer is `none`.  A Go panic is a result `panicked`
that carries the panic and the state that was reached when it was raised, so that
a property of the flags can be read off the state whether or not the call returned;
that a call returns is stated separately.
-/

/-- Go's `string`. -/
abbrev GoString := String

/-- Go's `bool`. -/
abbrev GoBool := Bool

/-- Go's `int`. -/
abbrev GoInt := Int

/-- Go's `len(s)` on a string: its length in bytes. -/
def goLen (s : String) : Nat := s.utf8ByteSize

/-- First byte of the UTF-8 encoding of a character. -/
def leadByte (c : Char) : Nat :=
  if c.toNat < 0x80 then c.toNat
  else if c.toNat < 0x800 then 0xC0 + c.toNat / 0x40
  else if c.toNat < 0x10000 then 0xE0 + c.toNat / 0x1000
  else 0xF0 + c.toNat / 0x40000

/-- Go's `s[0]` on a string: its first byte; `none` when the index is out of range. -/
def goByte0 (s : String) : Option Nat := s.data.head?.map leadByte

/-- Go's `m[k]` read on a map kept as an association list. -/
def mapGet {κ ν : Type} [DecidableEq κ] (m : List (κ × ν)) (k : κ) : Option ν :=
  match m with
  | [] => none
  | e :: rest => if e.1 = k then some e.2 else mapGet rest k

/-- Go's `m[k] = v` on a map kept as an association list. -/
def mapSet {κ ν : Type} [DecidableEq κ] (m : List (κ × ν)) (k : κ) (v : ν) : List (κ × ν) :=
  (k, v) :: m.filter (fun e => decide (e.1 ≠ k))

deriving instance DecidableEq for Except

namespace pflag

/-- Modelled from the spec: the registry's `Value` implementations are not under
`src/`; one constructor per registration primitive of the registry (boolean,
string, integer, string sequence), each holding the value the flag currently has,
which at registration is the default that was passed. -/
inductive Value where
  | boolValue (b : Bool)
  | stringValue (s : String)
  | intValue (i : Int)
  | stringSliceValue (ss : List String)
  deriving DecidableEq, Repr

/-- Modelled from the spec: the registry's `Flag` record is not under `src/`; the
fields are the ones registration fills in or the package assigns (name, shorthand,
description, value, hidden mark).  The fields used only by parsing and by help
output are left out. -/
structure Flag where
  Name : String
  Shorthand : String
  Usage : String
  Value : Value
  Hidden : Bool
  deriving DecidableEq, Repr

/-- Modelled from the spec: the failures of the external registry, which is not
under `src/`: a flag name registered twice, a shorthand longer than one byte, a
shorthand already used by another flag; and the two run-time faults of Go that the
calls can raise (dereferencing `nil`, indexing out of range). -/
inductive Panic where
  | flagRedefined (set : String) (name : String)
  | shorthandTooLong (shorthand : String)
  | shorthandRedefined (c : Nat) (set : String) (used : String)
  | nilDereference
  | indexOutOfRange
  deriving DecidableEq, Repr

/-- Outcome of a call that mutates a state of type `σ`: it returned (`done`) or it
panicked (`panicked`); either way the state it left behind is recorded. -/
inductive Result (σ : Type) where
  | done (s : σ)
  | panicked (p : Panic) (s : σ)
  deriving DecidableEq, Repr

/-- State left behind by a call. -/
def Result.state {σ : Type} : Result σ → σ
  | .done s => s
  | .panicked _ s => s

/-- Panic raised by a call, if any. -/
def Result.panic? {σ : Type} : Result σ → Option Panic
  | .done _ => none
  | .panicked p _ => some p

/-- Sequencing of two calls on the same state: the second runs only when the
first returned. -/
def Result.andThen {σ : Type} (r : Result σ) (k : σ → Result σ) : Result σ :=
  match r with
  | .done s => k s
  | .panicked p s => .panicked p s

/-- Outcome seen through an enclosing state. -/
def Result.lift {σ τ : Type} (g : σ → τ) : Result σ → Result τ
  | .done s => .done (g s)
  | .panicked p s => .panicked p (g s)

/-- A `*Flag`: the index of the object in `FlagSet.objs`. -/
abbrev Ptr := Nat

/-- Modelled from the spec: the registry's `FlagSet` is not under `src/`.  It keeps
the flags by name (`formal`), in registration order (`orderedFormal`) and by
shorthand byte (`shorthands`); all three hold pointers to the same `Flag` objects
(`objs`), so an assignment through one of them is seen through the others. -/
structure FlagSet where
  name : String
  objs : List Flag
  formal : List (String × Ptr)
  orderedFormal : List Ptr
  shorthands : List (Nat × Ptr)
  deriving DecidableEq, Repr

/-- Modelled from the spec: `NewFlagSet` of the registry (not under `src/`): a set
with the given name and no flags. -/
def NewFlagSet (name : String) : FlagSet :=
  { name := name, objs := [], formal := [], orderedFormal := [], shorthands := [] }

/-- Modelled from the spec: name normalisation of the registry (not under `src/`);
a flag set on which no normalisation function was installed keeps names as they
are. -/
def FlagSet.normalizeFlagName (_f : FlagSet) (name : String) : String := name

/-- Dereference of a `*Flag`. -/
def FlagSet.deref (f : FlagSet) (p : Ptr) : Option Flag := f.objs[p]?

/-- Modelled from the spec: `lookup` of the registry (not under `src/`):
`f.formal[name]`. -/
def FlagSet.lookup (f : FlagSet) (name : String) : Option Ptr := mapGet f.formal name

/-- Modelled from the spec: `Lookup` of the registry (not under `src/`): the flag
registered under the name, `nil` when there is none. -/
def FlagSet.Lookup (f : FlagSet) (name : String) : Option Ptr :=
  f.lookup (f.normalizeFlagName name)

/-- Modelled from the spec: `ShorthandLookup` of the registry (not under `src/`):
`nil` for the empty shorthand, a panic for one longer than a byte, otherwise the
flag registered under that byte. -/
def FlagSet.ShorthandLookup (f : FlagSet) (name : String) : Except Panic (Option Ptr) :=
  if name = "" then .ok none
  else if goLen name > 1 then .error (.shorthandTooLong name)
  else
    match goByte0 name with
    | none => .error .indexOutOfRange
    | some c => .ok (mapGet f.shorthands c)

/-- Modelled from the spec: `AddFlag` of the registry (not under `src/`).  A name
that is already registered is refused with a panic before anything changes.
Otherwise the flag becomes a new object of the set and is recorded by name and in
registration order; then a shorthand, when there is one, must be one byte long and
unused, or the call panics with the flag already recorded. -/
def FlagSet.AddFlag (f : FlagSet) (flag : Flag) : Result FlagSet :=
  let normalizedFlagName := f.normalizeFlagName flag.Name
  match mapGet f.formal normalizedFlagName with
  | some _ => .panicked (.flagRedefined f.name flag.Name) f
  | none =>
    let p : Ptr := f.objs.length
    let flag : Flag := { flag with Name := normalizedFlagName }
    let f : FlagSet :=
      { f with
        objs := f.objs ++ [flag]
        formal := mapSet f.formal normalizedFlagName p
        orderedFormal := f.orderedFormal ++ [p] }
    if flag.Shorthand = "" then .done f
    else if goLen flag.Shorthand > 1 then .panicked (.shorthandTooLong flag.Shorthand) f
    else
      match goByte0 flag.Shorthand with
      | none => .panicked .indexOutOfRange f
      | some c =>
        match mapGet f.shorthands c with
        | some used =>
          match f.deref used with
          | none => .panicked .nilDereference f
          | some u => .panicked (.shorthandRedefined c f.name u.Name) f
        | none => .done { f with shorthands := mapSet f.shorthands c p }

/-- Modelled from the spec: `VarPF` of the registry (not under `src/`): builds the
`Flag` from name, shorthand, description and value and adds it. -/
def FlagSet.VarPF (f : FlagSet) (value : Value) (name shorthand usage : String) :
    Result FlagSet :=
  f.AddFlag { Name := name, Shorthand := shorthand, Usage := usage, Value := value,
              Hidden := false }

/-- Modelled from the spec: the assignment `f.Hidden = hidden` through a `*Flag`
obtained from the registry; a `nil` pointer panics. -/
def FlagSet.assignHidden (f : FlagSet) (p : Option Ptr) (hidden : Bool) : Result FlagSet :=
  match p with
  | none => .panicked .nilDereference f
  | some p =>
    match f.deref p with
    | none => .panicked .nilDereference f
    | some o => .done { f with objs := f.objs.set p { o with Hidden := hidden } }

/-- Modelled from the spec: register-boolean with a shorthand (`BoolP`, not under
`src/`). -/
def FlagSet.BoolP (f : FlagSet) (name shorthand : String) (value : GoBool) (usage : String) :
    Result FlagSet :=
  f.VarPF (.boolValue value) name shorthand usage

/-- Modelled from the spec: register-string with a shorthand (`StringP`, not under
`src/`). -/
def FlagSet.StringP (f : FlagSet) (name shorthand : String) (value : GoString)
    (usage : String) : Result FlagSet :=
  f.VarPF (.stringValue value) name shorthand usage

/-- Modelled from the spec: register-integer with a shorthand (`IntP`, not under
`src/`). -/
def FlagSet.IntP (f : FlagSet) (name shorthand : String) (value : GoInt) (usage : String) :
    Result FlagSet :=
  f.VarPF (.intValue value) name shorthand usage

/-- Modelled from the spec: register-string-sequence with a shorthand
(`StringSliceP`, not under `src/`). -/
def FlagSet.StringSliceP (f : FlagSet) (name shorthand : String) (value : List GoString)
    (usage : String) : Result FlagSet :=
  f.VarPF (.stringSliceValue value) name shorthand usage

/-- Modelled from the spec: register-string-sequence without a shorthand
(`StringSlice`, not under `src/`): the same with the empty shorthand. -/
def FlagSet.StringSlice (f : FlagSet) (name : String) (value : List GoString)
    (usage : String) : Result FlagSet :=
  f.StringSliceP name "" value usage

/-- Modelled from the spec: register-boolean without a shorthand (`Bool`, not under
`src/`): the same with the empty shorthand. -/
def FlagSet.Bool (f : FlagSet) (name : GoString) (value : GoBool) (usage : GoString) :
    Result FlagSet :=
  f.BoolP name "" value usage

/-- Modelled from the spec: register-integer without a shorthand (`Int`, not under
`src/`): the same with the empty shorthand. -/
def FlagSet.Int (f : FlagSet) (name : GoString) (value : GoInt) (usage : GoString) :
    Result FlagSet :=
  f.IntP name "" value usage

/-- Modelled from the spec: register-string without a shorthand (`String`, not under
`src/`): the same with the empty shorthand. -/
def FlagSet.String (f : FlagSet) (name : GoString) (value : GoString) (usage : GoString) :
    Result FlagSet :=
  f.StringP name "" value usage

/-- The flag set after `flag` has been recorded as a new object: under its name, at
the end of the registration order and, when `c` is a byte, under that shorthand
byte. -/
def FlagSet.record (f : FlagSet) (flag : Flag) (c : Option Nat) : FlagSet :=
  { name := f.name
    objs := f.objs ++ [flag]
    formal := (flag.Name, f.objs.length) :: f.formal
    orderedFormal := f.orderedFormal ++ [f.objs.length]
    shorthands :=
      match c with
      | none => f.shorthands
      | some c => (c, f.objs.length) :: f.shorthands }

/-- The byte under which a shorthand is registered; `none` for the empty one. -/
def shortKey (shorthand : String) : Option Nat :=
  if shorthand = "" then none else goByte0 shorthand

/-- The registry takes the shorthand: it is empty, or one byte long and that byte
is not in use in `f`. -/
def FlagSet.takes (f : FlagSet) (shorthand : GoString) : Prop :=
  shorthand = "" ∨
    (goLen shorthand ≤ 1 ∧ ∀ c, goByte0 shorthand = some c → mapGet f.shorthands c = none)

/-- The flag that `Lookup` by name denotes. -/
def FlagSet.flagNamed (f : FlagSet) (name : GoString) : Option Flag :=
  (f.Lookup name).bind f.deref

/-- The flag registered under a shorthand byte. -/
def FlagSet.flagAt (f : FlagSet) (c : Nat) : Option Flag :=
  (mapGet f.shorthands c).bind f.deref

/-- The flag that `ShorthandLookup` denotes; a panic of the lookup is passed on. -/
def FlagSet.flagShort (f : FlagSet) (shorthand : GoString) : Except Panic (Option Flag) :=
  match f.ShorthandLookup shorthand with
  | .ok p => .ok (p.bind f.deref)
  | .error e => .error e

/-- The flags in registration order. -/
def FlagSet.orderedFlags (f : FlagSet) : List (Option Flag) := f.orderedFormal.map f.deref

/-- Every pointer kept in the two maps points to an object of the set. -/
def FlagSet.WF (f : FlagSet) : Prop :=
  (∀ e ∈ f.formal, e.2 < f.objs.length) ∧ (∀ e ∈ f.shorthands, e.2 < f.objs.length)

end pflag

namespace cobra

/-- Modelled from the spec: the registration target (`cobra.Command`, not under
`src/`), reduced to what the package reaches: the usage line, whose first word is
the command's name, and the flag set, which is `nil` until it is first asked for. -/
structure Command where
  Use : String
  flags : Option pflag.FlagSet
  deriving DecidableEq, Repr

/-- Modelled from the spec: `Name` of the command (not under `src/`): the usage line
up to its first space. -/
def Command.Name (c : Command) : String := ⟨c.Use.data.takeWhile (fun ch => ch != Char.ofNat 32)⟩

/-- Modelled from the spec: `Flags` of the command (not under `src/`): the command's
flag set, created empty under the command's name on first use. -/
def Command.Flags (c : Command) : pflag.FlagSet :=
  match c.flags with
  | some fs => fs
  | none => pflag.NewFlagSet c.Name

/-- The command after its flag set, reached through the pointer returned by
`Flags`, has become `fs`. -/
def Command.withFlags (c : Command) (fs : pflag.FlagSet) : Command :=
  { c with flags := some fs }

/-- A command on which nothing has been registered. -/
def Command.fresh (use : String) : Command := { Use := use, flags := none }

end cobra

namespace flag

open pflag cobra

/-- The descriptor `Bool`. -/
structure Bool where
  Name : GoString
  Shorthand : GoString
  Description : GoString
  Default : GoBool
  Hidden : GoBool
  deriving DecidableEq, Repr

/-- The descriptor `String`. -/
structure String where
  Name : GoString
  Shorthand : GoString
  Description : GoString
  Default : GoString
  ConfName : GoString
  EnvName : GoString
  Hidden : GoBool
  deriving DecidableEq, Repr

/-- The descriptor `Int`. -/
structure Int where
  Name : GoString
  Shorthand : GoString
  Description : GoString
  Default : GoInt
  Hidden : GoBool
  deriving DecidableEq, Repr

/-- The descriptor `StringSlice`. -/
structure StringSlice where
  Name : GoString
  Shorthand : GoString
  Description : GoString
  Default : List GoString
  ConfName : GoString
  EnvName : GoString
  deriving DecidableEq, Repr

/-- The method `Bool.addTo`. -/
def Bool.addTo (b : Bool) (cmd : Command) : Result Command :=
  let flags := cmd.Flags
  let r :=
    if b.Shorthand != "" then flags.BoolP b.Name b.Shorthand b.Default b.Description
    else flags.Bool b.Name b.Default b.Description
  Result.lift cmd.withFlags
    (r.andThen fun flags =>
      let f := flags.Lookup b.Name
      flags.assignHidden f b.Hidden)

/-- The method `String.addTo`. -/
def String.addTo (s : String) (cmd : Command) : Result Command :=
  let flags := cmd.Flags
  let r :=
    if s.Shorthand != "" then flags.StringP s.Name s.Shorthand s.Default s.Description
    else flags.String s.Name s.Default s.Description
  Result.lift cmd.withFlags
    (r.andThen fun flags =>
      let f := flags.Lookup s.Name
      flags.assignHidden f s.Hidden)

/-- The method `Int.addTo`. -/
def Int.addTo (i : Int) (cmd : Command) : Result Command :=
  let flags := cmd.Flags
  let r :=
    if i.Shorthand != "" then flags.IntP i.Name i.Shorthand i.Default i.Description
    else flags.Int i.Name i.Default i.Description
  Result.lift cmd.withFlags
    (r.andThen fun flags =>
      let f := flags.Lookup i.Name
      flags.assignHidden f i.Hidden)

/-- The method `StringSlice.addTo`. -/
def StringSlice.addTo (ss : StringSlice) (cmd : Command) : Result Command :=
  let flags := cmd.Flags
  let r :=
    if ss.Shorthand != "" then flags.StringSliceP ss.Name ss.Shorthand ss.Default ss.Description
    else flags.StringSlice ss.Name ss.Default ss.Description
  Result.lift cmd.withFlags r

/-- The interface `Flag`: a value of one of the four types that implement `addTo`. -/
inductive Flag where
  | ofBool (b : Bool)
  | ofString (s : String)
  | ofInt (i : Int)
  | ofStringSlice (ss : StringSlice)
  deriving DecidableEq, Repr

/-- The interface method `addTo`: the method of the value held. -/
def Flag.addTo (flag : Flag) (cmd : Command) : Result Command :=
  match flag with
  | .ofBool b => b.addTo cmd
  | .ofString s => s.addTo cmd
  | .ofInt i => i.addTo cmd
  | .ofStringSlice ss => ss.addTo cmd

/-- The function `Add`: the loop over `flags`; a panic of an `addTo` ends it. -/
def Add (cmd : Command) (flags : List Flag) : Result Command :=
  match flags with
  | [] => .done cmd
  | flag :: rest =>
    match flag.addTo cmd with
    | .done cmd => Add cmd rest
    | .panicked p cmd => .panicked p cmd

/-- The constant `AccessTokenName`. -/
def AccessTokenName : GoString := "access-token"

/-- The constant `VerboseName`. -/
def VerboseName : GoString := "verbose"

/-- The constant `JSONOutputName`. -/
def JSONOutputName : GoString := "json"

/-- The constant `LocalOnlyName`. -/
def LocalOnlyName : GoString := "local-only"

/-- The constant `OrgName`. -/
def OrgName : GoString := "org"

/-- The constant `AppNameFlagName`. -/
def AppNameFlagName : GoString := "name"

/-- The constant `RegionName`. -/
def RegionName : GoString := "region"

/-- The constant `ImageName`. -/
def ImageName : GoString := "image"

/-- The constant `YesName`. -/
def YesName : GoString := "yes"

/-- The constant `NowName`. -/
def NowName : GoString := "now"

/-- The constant `NoDeployName`. -/
def NoDeployName : GoString := "no-deploy"

/-- The constant `GenerateNameFlagName`. -/
def GenerateNameFlagName : GoString := "generate-name"

/-- The constructor `Org`; fields that the Go literal leaves out have Go's zero
value. -/
def Org : String :=
  { Name := OrgName, Shorthand := "", Description := "The organization to operate on",
    Default := "", ConfName := "", EnvName := "", Hidden := false }

/-- The constructor `Yes`. -/
def Yes : Bool :=
  { Name := YesName, Shorthand := "y", Description := "Accept all confirmations",
    Default := false, Hidden := false }

/-- The constructor `AppName`. -/
def AppName : String :=
  { Name := AppNameFlagName, Shorthand := "",
    Description := "The name of the application to create",
    Default := "", ConfName := "", EnvName := "", Hidden := false }

/-- The constructor `Region`. -/
def Region : String :=
  { Name := RegionName, Shorthand := "", Description := "The target region for the operation",
    Default := "", ConfName := "", EnvName := "", Hidden := false }

/-- The constructor `Image`. -/
def Image : String :=
  { Name := ImageName, Shorthand := "", Description := "The image to deploy",
    Default := "", ConfName := "", EnvName := "", Hidden := false }

/-- The constructor `Now`. -/
def Now : Bool :=
  { Name := NowName, Shorthand := "", Description := "Deploy now without confirmation",
    Default := false, Hidden := false }

/-- The constructor `NoDeploy`. -/
def NoDeploy : Bool :=
  { Name := NoDeployName, Shorthand := "", Description := "Do not prompt for deployment",
    Default := false, Hidden := false }

/-- The constructor `GenerateName`. -/
def GenerateName : Bool :=
  { Name := GenerateNameFlagName, Shorthand := "",
    Description := "Always generate a name for the app",
    Default := false, Hidden := false }

/-- The constructor `RemoteOnly`. -/
def RemoteOnly : Bool :=
  { Name := "remote-only", Shorthand := "",
    Description :=
      "Perform builds on a remote builder instance instead of using the local docker daemon",
    Default := true, Hidden := false }

/-- Name of a descriptor. -/
def Flag.Name : Flag → GoString
  | .ofBool b => b.Name
  | .ofString s => s.Name
  | .ofInt i => i.Name
  | .ofStringSlice ss => ss.Name

/-- Shorthand of a descriptor. -/
def Flag.Shorthand : Flag → GoString
  | .ofBool b => b.Shorthand
  | .ofString s => s.Shorthand
  | .ofInt i => i.Shorthand
  | .ofStringSlice ss => ss.Shorthand

/-- Description of a descriptor. -/
def Flag.Description : Flag → GoString
  | .ofBool b => b.Description
  | .ofString s => s.Description
  | .ofInt i => i.Description
  | .ofStringSlice ss => ss.Description

/-- Default of a descriptor, as a value of the registry. -/
def Flag.Default : Flag → pflag.Value
  | .ofBool b => .boolValue b.Default
  | .ofString s => .stringValue s.Default
  | .ofInt i => .intValue i.Default
  | .ofStringSlice ss => .stringSliceValue ss.Default

/-- Hidden mark of a descriptor; a `StringSlice` has no such field and its flag
stays visible. -/
def Flag.Hidden : Flag → GoBool
  | .ofBool b => b.Hidden
  | .ofString s => s.Hidden
  | .ofInt i => i.Hidden
  | .ofStringSlice _ => false

/-- The registry's record of a descriptor: its name, shorthand, description,
default and hidden mark. -/
def Flag.object (d : Flag) : pflag.Flag :=
  { Name := d.Name, Shorthand := d.Shorthand, Usage := d.Description, Value := d.Default,
    Hidden := d.Hidden }

/-- The flag set after the descriptors of `ds` have been recorded, one after the
other. -/
def recordAll (f : FlagSet) (ds : List Flag) : FlagSet :=
  ds.foldl (fun f d => f.record d.object (shortKey d.Shorthand)) f

end flag

/-! ## Lemmas on maps, on the registry and on sequences of registrations -/

section Maps

variable {κ ν : Type} [DecidableEq κ]

theorem mapGet_nil (k : κ) : mapGet ([] : List (κ × ν)) k = none := rfl

theorem mapGet_cons (e : κ × ν) (m : List (κ × ν)) (k : κ) :
    mapGet (e :: m) k = if e.1 = k then some e.2 else mapGet m k := rfl

theorem mapGet_eq_none_iff (m : List (κ × ν)) (k : κ) :
    mapGet m k = none ↔ ∀ e ∈ m, e.1 ≠ k := by
  induction m with
  | nil => simp [mapGet_nil]
  | cons e m ih =>
    rw [mapGet_cons]
    by_cases h : e.1 = k
    · simp [h]
    · simp [h, ih]

theorem mapSet_of_absent (m : List (κ × ν)) (k : κ) (v : ν) (h : mapGet m k = none) :
    mapSet m k v = (k, v) :: m := by
  unfold mapSet
  congr 1
  rw [List.filter_eq_self]
  intro e he
  have := (mapGet_eq_none_iff m k).1 h e he
  simpa using this

end Maps

namespace pflag

@[simp] theorem Result.state_done {σ : Type} (s : σ) : (Result.done s).state = s := rfl

@[simp] theorem Result.state_panicked {σ : Type} (p : Panic) (s : σ) :
    (Result.panicked p s).state = s := rfl

@[simp] theorem Result.panic?_done {σ : Type} (s : σ) : (Result.done s).panic? = none := rfl

@[simp] theorem Result.panic?_panicked {σ : Type} (p : Panic) (s : σ) :
    (Result.panicked p s).panic? = some p := rfl

@[simp] theorem Result.andThen_done {σ : Type} (s : σ) (k : σ → Result σ) :
    (Result.done s).andThen k = k s := rfl

@[simp] theorem Result.andThen_panicked {σ : Type} (p : Panic) (s : σ) (k : σ → Result σ) :
    (Result.panicked p s).andThen k = .panicked p s := rfl

@[simp] theorem Result.lift_done {σ τ : Type} (g : σ → τ) (s : σ) :
    Result.lift g (.done s) = .done (g s) := rfl

@[simp] theorem Result.lift_panicked {σ τ : Type} (g : σ → τ) (p : Panic) (s : σ) :
    Result.lift g (.panicked p s) = .panicked p (g s) := rfl

theorem Result.panic?_eq_none_iff {σ : Type} (r : Result σ) :
    r.panic? = none ↔ ∃ s, r = .done s := by
  cases r <;> simp

theorem goByte0_isSome (s : String) (h : s ≠ "") : ∃ c, goByte0 s = some c := by
  obtain ⟨l⟩ := s
  cases l with
  | nil => exact absurd rfl h
  | cons a l => exact ⟨leadByte a, rfl⟩

theorem AddFlag_present (f : FlagSet) (flag : Flag) (q : Ptr)
    (h : mapGet f.formal flag.Name = some q) :
    f.AddFlag flag = .panicked (.flagRedefined f.name flag.Name) f := by
  simp [FlagSet.AddFlag, FlagSet.normalizeFlagName, h]

theorem AddFlag_taken (f : FlagSet) (flag : Flag)
    (h : mapGet f.formal flag.Name = none) (ht : f.takes flag.Shorthand) :
    f.AddFlag flag = .done (f.record flag (shortKey flag.Shorthand)) := by
  obtain ⟨n, sh, u, v, hid⟩ := flag
  simp only at h ht ⊢
  unfold FlagSet.takes at ht
  by_cases hs : sh = ""
  · simp [FlagSet.AddFlag, FlagSet.normalizeFlagName, h, hs, FlagSet.record, shortKey,
      mapSet_of_absent]
  · rcases ht with ht | ⟨hl, hc⟩
    · exact absurd ht hs
    · obtain ⟨c, hc0⟩ := goByte0_isSome _ hs
      have hfree := hc c hc0
      simp [FlagSet.AddFlag, FlagSet.normalizeFlagName, h, hs, FlagSet.record, shortKey,
        mapSet_of_absent, hl, hc0, hfree]

theorem AddFlag_refused (f : FlagSet) (flag : Flag)
    (h : mapGet f.formal flag.Name = none) (ht : ¬ f.takes flag.Shorthand) :
    ∃ p, f.AddFlag flag = .panicked p (f.record flag none) := by
  obtain ⟨n, sh, u, v, hid⟩ := flag
  simp only at h ht ⊢
  unfold FlagSet.takes at ht
  push_neg at ht
  obtain ⟨hs, hc⟩ := ht
  obtain ⟨c, hc0⟩ := goByte0_isSome _ hs
  by_cases hl : goLen sh ≤ 1
  · obtain ⟨c', hc', hused⟩ := hc hl
    rw [hc0] at hc'
    cases hc'
    obtain ⟨used, hused⟩ := Option.ne_none_iff_exists'.1 hused
    have hl' : ¬ 1 < goLen sh := Nat.not_lt.2 hl
    cases hd : (f.objs ++ [(⟨n, sh, u, v, hid⟩ : Flag)])[used]? with
    | none =>
      refine ⟨.nilDereference, ?_⟩
      simp [FlagSet.AddFlag, FlagSet.normalizeFlagName, h, hs, FlagSet.record,
        mapSet_of_absent, hl', hc0, hused, FlagSet.deref, hd]
    | some o =>
      refine ⟨.shorthandRedefined c f.name o.Name, ?_⟩
      simp [FlagSet.AddFlag, FlagSet.normalizeFlagName, h, hs, FlagSet.record,
        mapSet_of_absent, hl', hc0, hused, FlagSet.deref, hd]
  · refine ⟨.shorthandTooLong sh, ?_⟩
    simp [FlagSet.AddFlag, FlagSet.normalizeFlagName, h, hs, FlagSet.record,
        mapSet_of_absent, Nat.lt_of_not_le hl]

end pflag

namespace flag

open pflag cobra

theorem BoolP_branch (f : FlagSet) (n sh u : GoString) (v : GoBool) :
    (if sh != "" then f.BoolP n sh v u else f.Bool n v u)
      = f.AddFlag ⟨n, sh, u, .boolValue v, false⟩ := by
  by_cases h : sh = "" <;> simp [h, FlagSet.Bool, FlagSet.BoolP, FlagSet.VarPF]

theorem StringP_branch (f : FlagSet) (n sh u : GoString) (v : GoString) :
    (if sh != "" then f.StringP n sh v u else f.String n v u)
      = f.AddFlag ⟨n, sh, u, .stringValue v, false⟩ := by
  by_cases h : sh = "" <;> simp [h, FlagSet.String, FlagSet.StringP, FlagSet.VarPF]

theorem IntP_branch (f : FlagSet) (n sh u : GoString) (v : GoInt) :
    (if sh != "" then f.IntP n sh v u else f.Int n v u)
      = f.AddFlag ⟨n, sh, u, .intValue v, false⟩ := by
  by_cases h : sh = "" <;> simp [h, FlagSet.Int, FlagSet.IntP, FlagSet.VarPF]

theorem StringSliceP_branch (f : FlagSet) (n sh u : GoString) (v : List GoString) :
    (if sh != "" then f.StringSliceP n sh v u else f.StringSlice n v u)
      = f.AddFlag ⟨n, sh, u, .stringSliceValue v, false⟩ := by
  by_cases h : sh = "" <;> simp [h, FlagSet.StringSlice, FlagSet.StringSliceP, FlagSet.VarPF]

theorem assignHidden_record (f : FlagSet) (o : pflag.Flag) (k : Option Nat) (h : GoBool) :
    (f.record o k).assignHidden ((f.record o k).Lookup o.Name) h
      = .done (f.record { o with Hidden := h } k) := by
  simp [FlagSet.record, FlagSet.Lookup, FlagSet.lookup, FlagSet.normalizeFlagName, mapGet_cons,
    FlagSet.assignHidden, FlagSet.deref]

/-- The three outcomes of an `addTo`. -/
theorem addTo_present (d : Flag) (cmd : Command) (q : Ptr)
    (h : mapGet cmd.Flags.formal d.Name = some q) :
    d.addTo cmd
      = .panicked (.flagRedefined cmd.Flags.name d.Name) (cmd.withFlags cmd.Flags) := by
  cases d <;>
    simp only [Flag.addTo, Bool.addTo, String.addTo, Int.addTo, StringSlice.addTo, BoolP_branch,
      StringP_branch, IntP_branch, StringSliceP_branch, Flag.Name] at h ⊢ <;>
    rw [AddFlag_present _ _ q h] <;> rfl

theorem addTo_taken (d : Flag) (cmd : Command)
    (h : mapGet cmd.Flags.formal d.Name = none) (ht : cmd.Flags.takes d.Shorthand) :
    d.addTo cmd
      = .done (cmd.withFlags (cmd.Flags.record d.object (shortKey d.Shorthand))) := by
  cases d <;>
    simp only [Flag.addTo, Bool.addTo, String.addTo, Int.addTo, StringSlice.addTo, BoolP_branch,
      StringP_branch, IntP_branch, StringSliceP_branch, Flag.Name, Flag.Shorthand] at h ht ⊢ <;>
    rw [AddFlag_taken _ _ h ht] <;>
    simp only [Result.andThen_done, Result.lift_done] <;>
    first
      | rfl
      | (rw [assignHidden_record]; rfl)

theorem addTo_refused (d : Flag) (cmd : Command)
    (h : mapGet cmd.Flags.formal d.Name = none) (ht : ¬ cmd.Flags.takes d.Shorthand) :
    ∃ p, d.addTo cmd
      = .panicked p (cmd.withFlags (cmd.Flags.record { d.object with Hidden := false } none)) := by
  obtain ⟨p, hp⟩ := AddFlag_refused cmd.Flags { d.object with Hidden := false } h ht
  refine ⟨p, ?_⟩
  cases d <;>
    simp only [Flag.addTo, Bool.addTo, String.addTo, Int.addTo, StringSlice.addTo, BoolP_branch,
      StringP_branch, IntP_branch, StringSliceP_branch] <;>
    simp only [Flag.object, Flag.Name, Flag.Shorthand, Flag.Description, Flag.Default] at hp <;>
    rw [hp] <;> rfl

end flag

theorem char_ascii_of_size (c : Char) (h : c.utf8Size ≤ 1) : c.toNat < 0x80 := by
  unfold Char.utf8Size at h
  simp only at h
  by_cases h1 : c.val ≤ UInt32.ofNatCore 127 (by decide)
  · have : c.val.toNat ≤ 127 := h1
    simp only [Char.toNat]
    omega
  · rw [if_neg h1] at h
    split_ifs at h <;> omega

theorem goLen_cons (a : Char) (l : List Char) :
    goLen ⟨a :: l⟩ = goLen ⟨l⟩ + a.utf8Size := rfl

theorem goLen_le_one (s : String) (h : goLen s ≤ 1) (h0 : s ≠ "") :
    ∃ c : Char, s = ⟨[c]⟩ ∧ c.toNat < 0x80 := by
  obtain ⟨l⟩ := s
  cases l with
  | nil => exact absurd rfl h0
  | cons a l =>
    rw [goLen_cons] at h
    have ha := Char.utf8Size_pos a
    cases l with
    | nil => exact ⟨a, rfl, char_ascii_of_size a (by omega)⟩
    | cons b l =>
      rw [goLen_cons] at h
      have hb := Char.utf8Size_pos b
      omega

theorem shorthand_eq_of_byte (s t : String) (hs : goLen s ≤ 1) (ht : goLen t ≤ 1)
    (hs0 : s ≠ "") (ht0 : t ≠ "") (h : goByte0 s = goByte0 t) : s = t := by
  obtain ⟨a, rfl, ha⟩ := goLen_le_one s hs hs0
  obtain ⟨b, rfl, hb⟩ := goLen_le_one t ht ht0
  simp only [goByte0, List.head?_cons, Option.map_some', Option.some.injEq, leadByte, ha, hb,
    if_true] at h
  have : a = b := by
    apply Char.ext
    apply UInt32.ext
    exact h
  rw [this]

namespace pflag

theorem mapGet_mem {κ ν : Type} [DecidableEq κ] (m : List (κ × ν)) (k : κ) (v : ν)
    (h : mapGet m k = some v) : (k, v) ∈ m := by
  induction m with
  | nil => simp [mapGet_nil] at h
  | cons e m ih =>
    rw [mapGet_cons] at h
    by_cases he : e.1 = k
    · simp only [he, if_true, Option.some.injEq] at h
      have : e = (k, v) := Prod.ext he h
      simp [this]
    · simp only [he, if_false] at h
      exact List.mem_cons_of_mem _ (ih h)

theorem WF_new (name : String) : (NewFlagSet name).WF := by
  simp [FlagSet.WF, NewFlagSet]

theorem WF_record (f : FlagSet) (o : Flag) (k : Option Nat) (h : f.WF) : (f.record o k).WF := by
  obtain ⟨h1, h2⟩ := h
  constructor
  · intro e he
    simp only [FlagSet.record, List.mem_cons, List.length_append, List.length_singleton] at he ⊢
    rcases he with rfl | he
    · simp
    · exact Nat.lt_succ_of_lt (h1 e he)
  · intro e he
    cases k with
    | none =>
      simp only [FlagSet.record, List.length_append, List.length_singleton] at he ⊢
      exact Nat.lt_succ_of_lt (h2 e he)
    | some c =>
      simp only [FlagSet.record, List.mem_cons, List.length_append, List.length_singleton] at he ⊢
      rcases he with rfl | he
      · simp
      · exact Nat.lt_succ_of_lt (h2 e he)

theorem deref_record_old (f : FlagSet) (o : Flag) (k : Option Nat) (p : Ptr)
    (h : p < f.objs.length) : (f.record o k).deref p = f.deref p := by
  simp [FlagSet.deref, FlagSet.record, List.getElem?_append_left h]

theorem deref_record_new (f : FlagSet) (o : Flag) (k : Option Nat) :
    (f.record o k).deref f.objs.length = some o := by
  simp [FlagSet.deref, FlagSet.record]

theorem flagNamed_record (f : FlagSet) (o : Flag) (k : Option Nat) (n : String) (h : f.WF) :
    (f.record o k).flagNamed n = if o.Name = n then some o else f.flagNamed n := by
  unfold FlagSet.flagNamed FlagSet.Lookup FlagSet.lookup FlagSet.normalizeFlagName
  have hf : (f.record o k).formal = (o.Name, f.objs.length) :: f.formal := rfl
  rw [hf, mapGet_cons]
  by_cases hn : o.Name = n
  · simp only [hn, if_true, Option.some_bind]
    exact deref_record_new f o k
  · simp only [hn, if_false]
    cases hq : mapGet f.formal n with
    | none => rfl
    | some q =>
      simp only [Option.some_bind]
      exact deref_record_old f o k q (h.1 _ (mapGet_mem _ _ _ hq))

theorem flagAt_record (f : FlagSet) (o : Flag) (k : Option Nat) (c : Nat) (h : f.WF) :
    (f.record o k).flagAt c = if k = some c then some o else f.flagAt c := by
  unfold FlagSet.flagAt
  have hold : ∀ q, mapGet f.shorthands c = some q →
      (some q).bind (f.record o k).deref = (some q).bind f.deref := by
    intro q hq
    simp only [Option.some_bind]
    exact deref_record_old f o k q (h.2 _ (mapGet_mem _ _ _ hq))
  cases k with
  | none =>
    have hs : (f.record o none).shorthands = f.shorthands := rfl
    rw [hs]
    simp only [if_false, reduceCtorEq]
    cases hq : mapGet f.shorthands c with
    | none => rfl
    | some q => exact hold q hq
  | some c' =>
    have hs : (f.record o (some c')).shorthands = (c', f.objs.length) :: f.shorthands := rfl
    rw [hs, mapGet_cons]
    by_cases hc : c' = c
    · simp only [hc, if_true, Option.some_bind]
      exact deref_record_new f o _
    · have hc' : ¬ (some c' = some c) := by simpa using hc
      simp only [hc, if_false, hc']
      cases hq : mapGet f.shorthands c with
      | none => rfl
      | some q => exact hold q hq

theorem flagShort_eq (f : FlagSet) (sh : String) :
    f.flagShort sh =
      if sh = "" then .ok none
      else if goLen sh > 1 then .error (.shorthandTooLong sh)
      else
        match goByte0 sh with
        | none => .error .indexOutOfRange
        | some c => .ok (f.flagAt c) := by
  unfold FlagSet.flagShort FlagSet.ShorthandLookup FlagSet.flagAt
  by_cases h1 : sh = ""
  · simp [h1]
  · by_cases h2 : goLen sh > 1
    · simp [h1, h2]
    · simp only [h1, h2, if_false]
      cases goByte0 sh <;> rfl

end pflag

namespace flag

open pflag cobra

theorem recordAll_nil (f : FlagSet) : recordAll f [] = f := rfl

theorem recordAll_cons (f : FlagSet) (d : Flag) (ds : List Flag) :
    recordAll f (d :: ds) = recordAll (f.record d.object (shortKey d.Shorthand)) ds := rfl

theorem recordAll_WF (ds : List Flag) : ∀ f : FlagSet, f.WF → (recordAll f ds).WF := by
  induction ds with
  | nil => intro f h; exact h
  | cons d ds ih => intro f h; exact ih _ (WF_record f _ _ h)

theorem recordAll_objs (ds : List Flag) :
    ∀ f : FlagSet, (recordAll f ds).objs = f.objs ++ ds.map Flag.object := by
  induction ds with
  | nil => intro f; simp [recordAll_nil]
  | cons d ds ih => intro f; rw [recordAll_cons, ih]; simp [FlagSet.record]

theorem recordAll_orderedFormal (ds : List Flag) :
    ∀ f : FlagSet, (recordAll f ds).orderedFormal
      = f.orderedFormal ++ List.range' f.objs.length ds.length := by
  induction ds with
  | nil => intro f; simp [recordAll_nil]
  | cons d ds ih =>
    intro f
    rw [recordAll_cons, ih]
    simp [FlagSet.record, List.range'_succ]

theorem recordAll_formal_length (ds : List Flag) :
    ∀ f : FlagSet, (recordAll f ds).formal.length = f.formal.length + ds.length := by
  induction ds with
  | nil => intro f; simp [recordAll_nil]
  | cons d ds ih =>
    intro f
    rw [recordAll_cons, ih]
    simp [FlagSet.record]
    omega

theorem recordAll_name (ds : List Flag) : ∀ f : FlagSet, (recordAll f ds).name = f.name := by
  induction ds with
  | nil => intro f; rfl
  | cons d ds ih => intro f; rw [recordAll_cons, ih]; rfl

theorem recordAll_flagNamed_frame (ds : List Flag) (n : GoString) :
    ∀ f : FlagSet, f.WF → n ∉ ds.map Flag.Name →
      (recordAll f ds).flagNamed n = f.flagNamed n := by
  induction ds with
  | nil => intro f _ _; rfl
  | cons d ds ih =>
    intro f h hn
    simp only [List.map_cons, List.mem_cons, not_or] at hn
    rw [recordAll_cons, ih _ (WF_record f _ _ h) hn.2, flagNamed_record _ _ _ _ h]
    have : ¬ d.object.Name = n := fun e => hn.1 e.symm
    simp [this]

theorem recordAll_flagNamed (ds : List Flag) :
    ∀ f : FlagSet, f.WF → (ds.map Flag.Name).Nodup → ∀ d ∈ ds,
      (recordAll f ds).flagNamed d.Name = some d.object := by
  induction ds with
  | nil => intro f _ _ d hd; simp at hd
  | cons d0 ds ih =>
    intro f h hnd d hd
    simp only [List.map_cons, List.nodup_cons] at hnd
    rw [recordAll_cons]
    rcases List.mem_cons.1 hd with rfl | hd
    · rw [recordAll_flagNamed_frame ds _ _ (WF_record f _ _ h) hnd.1,
        flagNamed_record _ _ _ _ h]
      simp [Flag.object]
    · exact ih _ (WF_record f _ _ h) hnd.2 d hd

theorem recordAll_flagAt_frame (ds : List Flag) (c : Nat) :
    ∀ f : FlagSet, f.WF → (∀ d ∈ ds, shortKey d.Shorthand ≠ some c) →
      (recordAll f ds).flagAt c = f.flagAt c := by
  induction ds with
  | nil => intro f _ _; rfl
  | cons d ds ih =>
    intro f h hn
    rw [recordAll_cons, ih _ (WF_record f _ _ h) (fun d' hd' => hn d' (List.mem_cons_of_mem _ hd')),
      flagAt_record _ _ _ _ h]
    simp [hn d (List.mem_cons_self _ _)]

theorem recordAll_flagAt (ds : List Flag) (c : Nat) :
    ∀ f : FlagSet, f.WF → (ds.filterMap fun d => shortKey d.Shorthand).Nodup → ∀ d ∈ ds,
      shortKey d.Shorthand = some c → (recordAll f ds).flagAt c = some d.object := by
  induction ds with
  | nil => intro f _ _ d hd; simp at hd
  | cons d0 ds ih =>
    intro f h hnd d hd hk
    rw [recordAll_cons]
    rcases List.mem_cons.1 hd with rfl | hd
    · simp only [List.filterMap_cons, hk, List.nodup_cons] at hnd
      have hfr : ∀ d' ∈ ds, shortKey d'.Shorthand ≠ some c := by
        intro d' hd' he
        exact hnd.1 (List.mem_filterMap.2 ⟨d', hd', he⟩)
      rw [recordAll_flagAt_frame ds c _ (WF_record f _ _ h) hfr, flagAt_record _ _ _ _ h]
      simp [hk]
    · have hnd' : (ds.filterMap fun d => shortKey d.Shorthand).Nodup := by
        cases hk0 : shortKey d0.Shorthand with
        | none => simpa only [List.filterMap_cons, hk0] using hnd
        | some c0 =>
          simp only [List.filterMap_cons, hk0, List.nodup_cons] at hnd
          exact hnd.2
      exact ih _ (WF_record f _ _ h) hnd' d hd hk

theorem Flags_withFlags (cmd : Command) (fs : FlagSet) : (cmd.withFlags fs).Flags = fs := rfl

theorem Flags_fresh (use : GoString) :
    (Command.fresh use).Flags = NewFlagSet (Command.fresh use).Name := rfl

theorem shortKey_empty : shortKey "" = none := rfl

theorem shortKey_of_ne (sh : GoString) (h : sh ≠ "") : shortKey sh = goByte0 sh := by
  simp [shortKey, h]

theorem shortKey_some_ne (sh : GoString) (c : Nat) (h : shortKey sh = some c) : sh ≠ "" := by
  intro e
  rw [e, shortKey_empty] at h
  cases h

theorem takes_of_free (f : FlagSet) (sh : GoString) (hl : goLen sh ≤ 1)
    (hf : ∀ c, shortKey sh = some c → mapGet f.shorthands c = none) : f.takes sh := by
  by_cases h : sh = ""
  · exact Or.inl h
  · refine Or.inr ⟨hl, fun c hc => hf c ?_⟩
    rw [shortKey_of_ne sh h]
    exact hc

theorem takes_length (f : FlagSet) (sh : GoString) (h : f.takes sh) : goLen sh ≤ 1 := by
  rcases h with h | h
  · rw [h]; decide
  · exact h.1

theorem takes_free (f : FlagSet) (sh : GoString) (h : f.takes sh) (c : Nat)
    (hc : shortKey sh = some c) : mapGet f.shorthands c = none := by
  have hne := shortKey_some_ne sh c hc
  rcases h with h | h
  · exact absurd h hne
  · exact h.2 c (by rw [← shortKey_of_ne sh hne]; exact hc)

/-- An `addTo` that returns has recorded the descriptor on a set that did not hold
the name and took the shorthand. -/
theorem addTo_done_inv (d : Flag) (cmd cmd' : Command) (h : d.addTo cmd = .done cmd') :
    mapGet cmd.Flags.formal d.Name = none ∧ cmd.Flags.takes d.Shorthand ∧
      cmd' = cmd.withFlags (cmd.Flags.record d.object (shortKey d.Shorthand)) := by
  cases hq : mapGet cmd.Flags.formal d.Name with
  | some q =>
    rw [addTo_present d cmd q hq] at h
    cases h
  | none =>
    by_cases ht : cmd.Flags.takes d.Shorthand
    · rw [addTo_taken d cmd hq ht] at h
      cases h
      exact ⟨rfl, ht, rfl⟩
    · obtain ⟨p, hp⟩ := addTo_refused d cmd hq ht
      rw [hp] at h
      cases h

theorem Add_nil (cmd : Command) : Add cmd [] = .done cmd := rfl

theorem Add_cons (cmd : Command) (d : Flag) (ds : List Flag) :
    Add cmd (d :: ds) =
      match d.addTo cmd with
      | .done cmd => Add cmd ds
      | .panicked p cmd => .panicked p cmd := rfl

theorem Add_cons_done (cmd cmd1 : Command) (d : Flag) (ds : List Flag)
    (h : d.addTo cmd = .done cmd1) : Add cmd (d :: ds) = Add cmd1 ds := by
  rw [Add_cons, h]

theorem Add_cons_panicked (cmd cmd1 : Command) (p : Panic) (d : Flag) (ds : List Flag)
    (h : d.addTo cmd = .panicked p cmd1) : Add cmd (d :: ds) = .panicked p cmd1 := by
  rw [Add_cons, h]

/-- A sequence whose names are new and distinct and whose shorthands are taken one
after the other is registered in full. -/
theorem Add_done (ds : List Flag) : ∀ cmd : Command,
    (∀ d ∈ ds, mapGet cmd.Flags.formal d.Name = none) →
    (ds.map Flag.Name).Nodup →
    (∀ d ∈ ds, goLen d.Shorthand ≤ 1) →
    (∀ d ∈ ds, ∀ c, shortKey d.Shorthand = some c → mapGet cmd.Flags.shorthands c = none) →
    (ds.filterMap fun d => shortKey d.Shorthand).Nodup →
    ∃ cmd', Add cmd ds = .done cmd' ∧ cmd'.Flags = recordAll cmd.Flags ds := by
  induction ds with
  | nil => intro cmd _ _ _ _ _; exact ⟨cmd, rfl, rfl⟩
  | cons d ds ih =>
    intro cmd h1 h2 h3 h4 h5
    have hd := List.mem_cons_self d ds
    have ht : cmd.Flags.takes d.Shorthand := takes_of_free _ _ (h3 d hd) (h4 d hd)
    have hstep := addTo_taken d cmd (h1 d hd) ht
    rw [Add_cons_done _ _ _ _ hstep, recordAll_cons]
    simp only [List.map_cons, List.nodup_cons] at h2
    have h5' : (ds.filterMap fun d => shortKey d.Shorthand).Nodup := by
      cases hk0 : shortKey d.Shorthand with
      | none => simpa only [List.filterMap_cons, hk0] using h5
      | some c0 =>
        simp only [List.filterMap_cons, hk0, List.nodup_cons] at h5
        exact h5.2
    apply ih (cmd.withFlags (cmd.Flags.record d.object (shortKey d.Shorthand)))
    · intro d' hd'
      rw [Flags_withFlags]
      have hne : ¬ d.object.Name = d'.Name := by
        intro e
        exact h2.1 (List.mem_map.2 ⟨d', hd', e.symm⟩)
      have hf : (cmd.Flags.record d.object (shortKey d.Shorthand)).formal
          = (d.object.Name, cmd.Flags.objs.length) :: cmd.Flags.formal := rfl
      rw [hf, mapGet_cons]
      simp only [hne, if_false]
      exact h1 d' (List.mem_cons_of_mem _ hd')
    · exact h2.2
    · exact fun d' hd' => h3 d' (List.mem_cons_of_mem _ hd')
    · intro d' hd' c hc
      rw [Flags_withFlags]
      have hold := h4 d' (List.mem_cons_of_mem _ hd') c hc
      cases hk0 : shortKey d.Shorthand with
      | none => exact hold
      | some c0 =>
        simp only [List.filterMap_cons, hk0, List.nodup_cons] at h5
        have hne : ¬ c0 = c := by
          intro e
          exact h5.1 (List.mem_filterMap.2 ⟨d', hd', by rw [hc, e]⟩)
        have hs : (cmd.Flags.record d.object (some c0)).shorthands
            = (c0, cmd.Flags.objs.length) :: cmd.Flags.shorthands := rfl
        rw [hs, mapGet_cons]
        simp only [hne, if_false]
        exact hold
    · exact h5'

/-- An `Add` that returns has recorded every descriptor, in order. -/
theorem Add_done_inv (ds : List Flag) : ∀ cmd cmd' : Command,
    Add cmd ds = .done cmd' → cmd'.Flags = recordAll cmd.Flags ds := by
  induction ds with
  | nil =>
    intro cmd cmd' h
    rw [Add_nil] at h
    cases h
    rfl
  | cons d ds ih =>
    intro cmd cmd' h
    cases hstep : d.addTo cmd with
    | panicked p c =>
      rw [Add_cons_panicked _ _ _ _ _ hstep] at h
      cases h
    | done cmd1 =>
      rw [Add_cons_done _ _ _ _ hstep] at h
      obtain ⟨-, -, rfl⟩ := addTo_done_inv d cmd cmd1 hstep
      rw [ih _ _ h, Flags_withFlags, recordAll_cons]

theorem keys_nodup (ds : List Flag) (hl : ∀ d ∈ ds, goLen d.Shorthand ≤ 1)
    (hs : ((ds.map Flag.Shorthand).filter fun s => decide (s ≠ "")).Nodup) :
    (ds.filterMap fun d => shortKey d.Shorthand).Nodup := by
  induction ds with
  | nil => simp
  | cons d ds ih =>
    have hl' : ∀ d' ∈ ds, goLen d'.Shorthand ≤ 1 := fun d' hd' => hl d' (List.mem_cons_of_mem _ hd')
    by_cases he : d.Shorthand = ""
    · have hk : shortKey d.Shorthand = none := by rw [he]; rfl
      simp only [List.map_cons, List.filter_cons, he, ne_eq, not_true_eq_false, decide_False,
        Bool.false_eq_true, if_false] at hs
      simp only [List.filterMap_cons, hk]
      exact ih hl' hs
    · obtain ⟨c, hc⟩ := goByte0_isSome _ he
      have hk : shortKey d.Shorthand = some c := by rw [shortKey_of_ne _ he]; exact hc
      simp only [List.map_cons, List.filter_cons, he, ne_eq, not_false_eq_true, decide_True,
        if_true, List.nodup_cons] at hs
      simp only [List.filterMap_cons, hk, List.nodup_cons]
      refine ⟨?_, ih hl' hs.2⟩
      intro hmem
      obtain ⟨d', hd', hk'⟩ := List.mem_filterMap.1 hmem
      have hne' := shortKey_some_ne _ _ hk'
      have hb : goByte0 d'.Shorthand = goByte0 d.Shorthand := by
        rw [← shortKey_of_ne _ hne', ← shortKey_of_ne _ he, hk', hk]
      have heq := shorthand_eq_of_byte _ _ (hl' d' hd') (hl d (List.mem_cons_self _ _)) hne' he hb
      apply hs.1
      rw [List.mem_filter]
      refine ⟨List.mem_map.2 ⟨d', hd', heq⟩, ?_⟩
      simpa using he

theorem flagNamed_record_self (f : FlagSet) (o : pflag.Flag) (k : Option Nat) :
    (f.record o k).flagNamed o.Name = some o := by
  unfold FlagSet.flagNamed FlagSet.Lookup FlagSet.lookup FlagSet.normalizeFlagName
  have hf : (f.record o k).formal = (o.Name, f.objs.length) :: f.formal := rfl
  rw [hf, mapGet_cons]
  simp only [if_true, Option.some_bind]
  exact deref_record_new f o k

theorem Lookup_record_self (f : FlagSet) (o : pflag.Flag) (k : Option Nat) :
    (f.record o k).Lookup o.Name = some f.objs.length := by
  unfold FlagSet.Lookup FlagSet.lookup FlagSet.normalizeFlagName
  have hf : (f.record o k).formal = (o.Name, f.objs.length) :: f.formal := rfl
  rw [hf, mapGet_cons]
  simp

/-- Whatever the outcome, an `addTo` on a set that does not hold the name leaves the
descriptor's flag under that name, with the descriptor's default and description. -/
theorem addTo_new_flagNamed (d : Flag) (cmd : Command)
    (h : mapGet cmd.Flags.formal d.Name = none) :
    ∃ o, (d.addTo cmd).state.Flags.flagNamed d.Name = some o ∧ o.Value = d.Default ∧
      o.Usage = d.Description ∧ o.Shorthand = d.Shorthand := by
  by_cases ht : cmd.Flags.takes d.Shorthand
  · rw [addTo_taken d cmd h ht]
    exact ⟨d.object, flagNamed_record_self _ d.object _, rfl, rfl, rfl⟩
  · obtain ⟨p, hp⟩ := addTo_refused d cmd h ht
    rw [hp]
    exact ⟨{ d.object with Hidden := false }, flagNamed_record_self _ _ _, rfl, rfl, rfl⟩

theorem takes_fresh (use : GoString) (sh : GoString) (h : goLen sh ≤ 1) :
    (Command.fresh use).Flags.takes sh :=
  takes_of_free _ _ h (fun _ _ => rfl)

theorem fresh_formal (use : GoString) (n : GoString) :
    mapGet (Command.fresh use).Flags.formal n = none := rfl

theorem addTo_fresh_returns_iff (d : Flag) (use : GoString) :
    (d.addTo (Command.fresh use)).panic? = none ↔ goLen d.Shorthand ≤ 1 := by
  constructor
  · intro h
    obtain ⟨cmd', hc⟩ := (Result.panic?_eq_none_iff _).1 h
    exact takes_length _ _ (addTo_done_inv d _ cmd' hc).2.1
  · intro h
    rw [addTo_taken d _ (fresh_formal use d.Name) (takes_fresh use _ h)]
    rfl

theorem foldl_andThen_panicked (ds : List Flag) (p : Panic) (c : Command) :
    ds.foldl (fun (r : Result Command) d => r.andThen fun cmd => d.addTo cmd) (.panicked p c)
      = .panicked p c := by
  induction ds with
  | nil => rfl
  | cons d ds ih => exact ih

theorem Add_eq_foldl (ds : List Flag) : ∀ cmd : Command,
    Add cmd ds
      = ds.foldl (fun (r : Result Command) d => r.andThen fun cmd => d.addTo cmd) (.done cmd) := by
  induction ds with
  | nil => intro cmd; rfl
  | cons d ds ih =>
    intro cmd
    rw [Add_cons, List.foldl_cons, Result.andThen_done]
    cases d.addTo cmd with
    | done c => exact ih c
    | panicked p c => exact (foldl_andThen_panicked ds p c).symm

theorem Add_append (xs ys : List Flag) : ∀ cmd : Command,
    Add cmd (xs ++ ys) = (Add cmd xs).andThen fun c => Add c ys := by
  induction xs with
  | nil => intro cmd; rfl
  | cons d xs ih =>
    intro cmd
    rw [List.cons_append, Add_cons, Add_cons]
    cases d.addTo cmd with
    | done c => exact ih c
    | panicked p c => rfl

theorem range_getElem_append {α : Type} (l : List α) : ∀ pre : List α,
    (List.range' pre.length l.length).map (fun p => (pre ++ l)[p]?) = l.map some := by
  induction l with
  | nil => intro pre; rfl
  | cons a l ih =>
    intro pre
    have h := ih (pre ++ [a])
    simp only [List.length_append, List.length_singleton, List.append_assoc,
      List.singleton_append] at h
    simp only [List.length_cons, List.range'_succ, List.map_cons, h]
    rw [List.getElem?_append_right (Nat.le_refl _)]
    simp

theorem recordAll_orderedFlags (ds : List Flag) (f : FlagSet) :
    (recordAll f ds).orderedFlags.drop f.orderedFormal.length
      = ds.map fun d => some d.object := by
  unfold FlagSet.orderedFlags
  rw [recordAll_orderedFormal, List.map_append, List.drop_left' (by simp)]
  unfold FlagSet.deref
  rw [recordAll_objs]
  have h := range_getElem_append (ds.map Flag.object) f.objs
  simp only [List.length_map, List.map_map] at h
  rw [h]
  rfl

theorem Add_state_shape (ds : List Flag) : ∀ cmd : Command, ∃ os : List pflag.Flag,
    (Add cmd ds).state.Flags.objs = cmd.Flags.objs ++ os ∧
    (Add cmd ds).state.Flags.orderedFormal
      = cmd.Flags.orderedFormal ++ List.range' cmd.Flags.objs.length os.length ∧
    os.map (fun o => o.Name) <+: ds.map Flag.Name := by
  induction ds with
  | nil => intro cmd; exact ⟨[], by simp [Add_nil], by simp [Add_nil], by simp⟩
  | cons d ds ih =>
    intro cmd
    cases hq : mapGet cmd.Flags.formal d.Name with
    | some q =>
      rw [Add_cons_panicked _ _ _ _ _ (addTo_present d cmd q hq)]
      exact ⟨[], by simp [Flags_withFlags], by simp [Flags_withFlags], by simp⟩
    | none =>
      by_cases ht : cmd.Flags.takes d.Shorthand
      · rw [Add_cons_done _ _ _ _ (addTo_taken d cmd hq ht)]
        obtain ⟨os, h1, h2, h3⟩ :=
          ih (cmd.withFlags (cmd.Flags.record d.object (shortKey d.Shorthand)))
        refine ⟨d.object :: os, ?_, ?_, ?_⟩
        · rw [h1, Flags_withFlags]
          simp [FlagSet.record]
        · rw [h2, Flags_withFlags]
          simp [FlagSet.record, List.range'_succ]
        · simpa [Flag.object] using h3
      · obtain ⟨p, hp⟩ := addTo_refused d cmd hq ht
        rw [Add_cons_panicked _ _ _ _ _ hp]
        refine ⟨[{ d.object with Hidden := false }], ?_, ?_, ?_⟩
        · simp [Flags_withFlags, FlagSet.record]
        · simp [Flags_withFlags, FlagSet.record]
        · simp [Flag.object]

theorem Add_listing_prefix (ds : List Flag) (cmd : Command) :
    ((Add cmd ds).state.Flags.orderedFlags.drop cmd.Flags.orderedFormal.length).map
        (fun o => o.map fun x => x.Name)
      <+: ds.map fun d => some d.Name := by
  obtain ⟨os, h1, h2, h3⟩ := Add_state_shape ds cmd
  unfold FlagSet.orderedFlags FlagSet.deref
  rw [h2, List.map_append, List.drop_left' (by simp), h1, range_getElem_append os cmd.Flags.objs]
  have h4 := h3.map some
  simpa [List.map_map, Function.comp_def] using h4

theorem withFlags_Flags_of_done (d : Flag) (cmd cmd1 : Command) (h : d.addTo cmd = .done cmd1) :
    cmd1.withFlags cmd1.Flags = cmd1 := by
  obtain ⟨-, -, rfl⟩ := addTo_done_inv d cmd cmd1 h
  rfl

theorem formal_of_done (d : Flag) (cmd cmd1 : Command) (h : d.addTo cmd = .done cmd1) :
    mapGet cmd1.Flags.formal d.Name = some cmd.Flags.objs.length := by
  obtain ⟨-, -, rfl⟩ := addTo_done_inv d cmd cmd1 h
  exact Lookup_record_self cmd.Flags d.object (shortKey d.Shorthand)

theorem recordAll_flagNamed_perm (ds ds' : List Flag) (f : FlagSet) (hwf : f.WF)
    (hp : ds.Perm ds') (hn : (ds.map Flag.Name).Nodup) (n : GoString) :
    (recordAll f ds).flagNamed n = (recordAll f ds').flagNamed n := by
  have hn' : (ds'.map Flag.Name).Nodup := (hp.map Flag.Name).nodup_iff.1 hn
  by_cases hmem : n ∈ ds.map Flag.Name
  · obtain ⟨d, hd, rfl⟩ := List.mem_map.1 hmem
    rw [recordAll_flagNamed ds f hwf hn d hd,
      recordAll_flagNamed ds' f hwf hn' d (hp.mem_iff.1 hd)]
  · have hmem' : n ∉ ds'.map Flag.Name := fun h => hmem ((hp.map Flag.Name).mem_iff.2 h)
    rw [recordAll_flagNamed_frame ds n f hwf hmem, recordAll_flagNamed_frame ds' n f hwf hmem']

theorem recordAll_flagAt_perm (ds ds' : List Flag) (f : FlagSet) (hwf : f.WF)
    (hp : ds.Perm ds') (hk : (ds.filterMap fun d => shortKey d.Shorthand).Nodup) (c : Nat) :
    (recordAll f ds).flagAt c = (recordAll f ds').flagAt c := by
  have hk' : (ds'.filterMap fun d => shortKey d.Shorthand).Nodup :=
    (hp.filterMap _).nodup_iff.1 hk
  by_cases hmem : ∃ d ∈ ds, shortKey d.Shorthand = some c
  · obtain ⟨d, hd, hc⟩ := hmem
    rw [recordAll_flagAt ds c f hwf hk d hd hc,
      recordAll_flagAt ds' c f hwf hk' d (hp.mem_iff.1 hd) hc]
  · have h1 : ∀ d ∈ ds, shortKey d.Shorthand ≠ some c := fun d hd he => hmem ⟨d, hd, he⟩
    have h2 : ∀ d ∈ ds', shortKey d.Shorthand ≠ some c :=
      fun d hd he => hmem ⟨d, hp.mem_iff.2 hd, he⟩
    rw [recordAll_flagAt_frame ds c f hwf h1, recordAll_flagAt_frame ds' c f hwf h2]

theorem flagShort_congr (f g : FlagSet) (h : ∀ c, f.flagAt c = g.flagAt c) (sh : GoString) :
    f.flagShort sh = g.flagShort sh := by
  rw [flagShort_eq, flagShort_eq]
  cases hb : goByte0 sh with
  | none => rfl
  | some c => simp only [h c]

theorem takes_of_ShorthandLookup (f : FlagSet) (sh : GoString) (hlen : goLen sh ≤ 1)
    (h : f.ShorthandLookup sh = .ok none) : f.takes sh := by
  by_cases he : sh = ""
  · exact Or.inl he
  · refine Or.inr ⟨hlen, fun c hc => ?_⟩
    simp only [FlagSet.ShorthandLookup, he, if_false, Nat.not_lt.2 hlen, hc] at h
    exact Except.ok.inj h

end flag

/-! ## The properties of the registration layer -/

open pflag cobra

/-- C1: for a descriptor of each of the four types and a fresh command, in the state
that `addTo` leaves the lookup by the name of the descriptor finds a flag whose value
is the default of the descriptor (the same bool, string, int, sequence of strings)
and whose description is that of the descriptor.  `addTo` returns normally exactly
when the shorthand is at most one byte long; when the registry panics on a longer
shorthand the flag has been recorded already. -/
theorem addTo_fresh_default (use : String) :
    (∀ b : flag.Bool, ∃ o,
      (b.addTo (Command.fresh use)).state.Flags.flagNamed b.Name = some o ∧
        o.Value = .boolValue b.Default ∧ o.Usage = b.Description) ∧
    (∀ s : flag.String, ∃ o,
      (s.addTo (Command.fresh use)).state.Flags.flagNamed s.Name = some o ∧
        o.Value = .stringValue s.Default ∧ o.Usage = s.Description) ∧
    (∀ i : flag.Int, ∃ o,
      (i.addTo (Command.fresh use)).state.Flags.flagNamed i.Name = some o ∧
        o.Value = .intValue i.Default ∧ o.Usage = i.Description) ∧
    (∀ ss : flag.StringSlice, ∃ o,
      (ss.addTo (Command.fresh use)).state.Flags.flagNamed ss.Name = some o ∧
        o.Value = .stringSliceValue ss.Default ∧ o.Usage = ss.Description) ∧
    (∀ d : flag.Flag,
      (d.addTo (Command.fresh use)).panic? = none ↔ goLen d.Shorthand ≤ 1) := by
  refine ⟨fun b => ?_, fun s => ?_, fun i => ?_, fun ss => ?_, fun d => ?_⟩
  · obtain ⟨o, h1, h2, h3, -⟩ :=
      flag.addTo_new_flagNamed (.ofBool b) (Command.fresh use) (flag.fresh_formal use _)
    exact ⟨o, h1, h2, h3⟩
  · obtain ⟨o, h1, h2, h3, -⟩ :=
      flag.addTo_new_flagNamed (.ofString s) (Command.fresh use) (flag.fresh_formal use _)
    exact ⟨o, h1, h2, h3⟩
  · obtain ⟨o, h1, h2, h3, -⟩ :=
      flag.addTo_new_flagNamed (.ofInt i) (Command.fresh use) (flag.fresh_formal use _)
    exact ⟨o, h1, h2, h3⟩
  · obtain ⟨o, h1, h2, h3, -⟩ :=
      flag.addTo_new_flagNamed (.ofStringSlice ss) (Command.fresh use) (flag.fresh_formal use _)
    exact ⟨o, h1, h2, h3⟩
  · exact flag.addTo_fresh_returns_iff d use

/-- C2, as stated, fails.  The Bool descriptor `verbose` with the shorthand `vv` is
left registered under its name on a fresh command, and the lookup by its shorthand
does not yield that flag: it panics.  The same holds for the shorthand `é`, a single
character that takes two bytes. -/
theorem shorthand_lookup_counterexample :
    (¬ ∃ p,
      ((flag.Bool.addTo ⟨"verbose", "vv", "Chatty output", false, false⟩
          (Command.fresh "app")).state.Flags.ShorthandLookup "vv" = .ok (some p)) ∧
      ((flag.Bool.addTo ⟨"verbose", "vv", "Chatty output", false, false⟩
          (Command.fresh "app")).state.Flags.Lookup "verbose" = some p)) ∧
    (¬ ∃ p,
      ((flag.Bool.addTo ⟨"verbose", "é", "Chatty output", false, false⟩
          (Command.fresh "app")).state.Flags.ShorthandLookup "é" = .ok (some p)) ∧
      ((flag.Bool.addTo ⟨"verbose", "é", "Chatty output", false, false⟩
          (Command.fresh "app")).state.Flags.Lookup "verbose" = some p)) := by
  constructor
  · rintro ⟨p, h, -⟩
    have hv : (flag.Bool.addTo ⟨"verbose", "vv", "Chatty output", false, false⟩
        (Command.fresh "app")).state.Flags.ShorthandLookup "vv"
          = .error (.shorthandTooLong "vv") := by decide
    rw [hv] at h
    cases h
  · rintro ⟨p, h, -⟩
    have hv : (flag.Bool.addTo ⟨"verbose", "é", "Chatty output", false, false⟩
        (Command.fresh "app")).state.Flags.ShorthandLookup "é"
          = .error (.shorthandTooLong "é") := by decide
    rw [hv] at h
    cases h

/-- C2, amended: for a descriptor of any of the four types whose shorthand is at most
one byte long, `addTo` on a fresh command returns; if the shorthand is not empty, the
lookup by the shorthand and the lookup by the name yield the same flag, which is the
record of the descriptor; if the shorthand is empty, the shorthand table of the
command has no entry at all. -/
theorem shorthand_lookup_fresh (d : flag.Flag) (use : String)
    (hlen : goLen d.Shorthand ≤ 1) :
    ∃ cmd', d.addTo (Command.fresh use) = .done cmd' ∧
      (d.Shorthand ≠ "" → ∃ p,
        cmd'.Flags.ShorthandLookup d.Shorthand = .ok (some p) ∧
          cmd'.Flags.Lookup d.Name = some p ∧ cmd'.Flags.deref p = some d.object) ∧
      (d.Shorthand = "" → cmd'.Flags.shorthands = []) := by
  refine ⟨_, flag.addTo_taken d _ (flag.fresh_formal use d.Name) (flag.takes_fresh use _ hlen),
    ?_, ?_⟩
  · intro hne
    obtain ⟨c, hc⟩ := goByte0_isSome _ hne
    refine ⟨(Command.fresh use).Flags.objs.length, ?_, ?_, ?_⟩
    · rw [flag.Flags_withFlags, flag.shortKey_of_ne _ hne, hc]
      simp [FlagSet.ShorthandLookup, hne, Nat.not_lt.2 hlen, hc, FlagSet.record, mapGet_cons]
    · exact flag.Lookup_record_self _ d.object _
    · exact deref_record_new _ _ _
  · intro he
    rw [flag.Flags_withFlags, he]
    rfl

/-- Witness of the amended C2: the constructor `Yes` has the one-byte shorthand `y`. -/
theorem shorthand_lookup_fresh_witness :
    goLen (flag.Flag.ofBool flag.Yes).Shorthand ≤ 1 ∧
    ∃ cmd', (flag.Flag.ofBool flag.Yes).addTo (Command.fresh "app") = .done cmd' ∧
      ((flag.Flag.ofBool flag.Yes).Shorthand ≠ "" → ∃ p,
        cmd'.Flags.ShorthandLookup (flag.Flag.ofBool flag.Yes).Shorthand = .ok (some p) ∧
          cmd'.Flags.Lookup (flag.Flag.ofBool flag.Yes).Name = some p ∧
          cmd'.Flags.deref p = some (flag.Flag.ofBool flag.Yes).object) ∧
      ((flag.Flag.ofBool flag.Yes).Shorthand = "" → cmd'.Flags.shorthands = []) :=
  ⟨by decide, shorthand_lookup_fresh (.ofBool flag.Yes) "app" (by decide)⟩

/-- C3, as stated, fails.  The Bool descriptor `secret` with the shorthand `xy` and
`Hidden = true` is left registered on a fresh command, and the flag found under its
name is not marked hidden.  The same holds for the shorthand `é`, a single character
that takes two bytes. -/
theorem hidden_mark_counterexample :
    (¬ ∃ o,
      (flag.Bool.addTo ⟨"secret", "xy", "Internal", false, true⟩
          (Command.fresh "app")).state.Flags.flagNamed "secret" = some o ∧
        o.Hidden = true) ∧
    (¬ ∃ o,
      (flag.Bool.addTo ⟨"secret", "é", "Internal", false, true⟩
          (Command.fresh "app")).state.Flags.flagNamed "secret" = some o ∧
        o.Hidden = true) := by
  constructor
  · rintro ⟨o, h, ho⟩
    have hv : (flag.Bool.addTo ⟨"secret", "xy", "Internal", false, true⟩
        (Command.fresh "app")).state.Flags.flagNamed "secret"
          = some ⟨"secret", "xy", "Internal", .boolValue false, false⟩ := by decide
    rw [hv] at h
    cases h
    cases ho
  · rintro ⟨o, h, ho⟩
    have hv : (flag.Bool.addTo ⟨"secret", "é", "Internal", false, true⟩
        (Command.fresh "app")).state.Flags.flagNamed "secret"
          = some ⟨"secret", "é", "Internal", .boolValue false, false⟩ := by decide
    rw [hv] at h
    cases h
    cases ho

/-- C3, amended: for every Bool, String and Int descriptor whose shorthand is at most
one byte long, `addTo` on a fresh command returns and the flag found under the name
of the descriptor has the hidden mark of the descriptor. -/
theorem hidden_mark_fresh (use : String) :
    (∀ b : flag.Bool, goLen b.Shorthand ≤ 1 → ∃ cmd' o,
      b.addTo (Command.fresh use) = .done cmd' ∧
        cmd'.Flags.flagNamed b.Name = some o ∧ o.Hidden = b.Hidden) ∧
    (∀ s : flag.String, goLen s.Shorthand ≤ 1 → ∃ cmd' o,
      s.addTo (Command.fresh use) = .done cmd' ∧
        cmd'.Flags.flagNamed s.Name = some o ∧ o.Hidden = s.Hidden) ∧
    (∀ i : flag.Int, goLen i.Shorthand ≤ 1 → ∃ cmd' o,
      i.addTo (Command.fresh use) = .done cmd' ∧
        cmd'.Flags.flagNamed i.Name = some o ∧ o.Hidden = i.Hidden) := by
  refine ⟨fun b h => ?_, fun s h => ?_, fun i h => ?_⟩
  · exact ⟨_, _, flag.addTo_taken (.ofBool b) _ (flag.fresh_formal use _)
      (flag.takes_fresh use _ h), flag.flagNamed_record_self _ (flag.Flag.ofBool b).object _, rfl⟩
  · exact ⟨_, _, flag.addTo_taken (.ofString s) _ (flag.fresh_formal use _)
      (flag.takes_fresh use _ h), flag.flagNamed_record_self _ (flag.Flag.ofString s).object _, rfl⟩
  · exact ⟨_, _, flag.addTo_taken (.ofInt i) _ (flag.fresh_formal use _)
      (flag.takes_fresh use _ h), flag.flagNamed_record_self _ (flag.Flag.ofInt i).object _, rfl⟩

/-- Witness of the amended C3: a hidden Bool descriptor with the shorthand `s`. -/
theorem hidden_mark_fresh_witness :
    goLen (⟨"secret", "s", "Internal", false, true⟩ : flag.Bool).Shorthand ≤ 1 ∧
    ∃ cmd' o,
      flag.Bool.addTo ⟨"secret", "s", "Internal", false, true⟩ (Command.fresh "app")
        = .done cmd' ∧
      cmd'.Flags.flagNamed (⟨"secret", "s", "Internal", false, true⟩ : flag.Bool).Name = some o ∧
      o.Hidden = (⟨"secret", "s", "Internal", false, true⟩ : flag.Bool).Hidden :=
  ⟨by decide, (hidden_mark_fresh "app").1 ⟨"secret", "s", "Internal", false, true⟩ (by decide)⟩

/-- C4, as stated, fails.  Three Bool descriptors with the distinct names `a`, `b`,
`c`, of which `a` and `b` share the shorthand `x`: `Add` on a fresh command panics
at `b`; two flags are registered, not three, and `c` is not retrievable.  Two Bool
descriptors with the distinct names `a`, `c`, of which `a` has the shorthand `xy`:
`Add` panics at `a`; one flag is registered, not two, and `c` is not retrievable. -/
theorem add_count_counterexample :
    ((([.ofBool ⟨"a", "x", "", false, false⟩, .ofBool ⟨"b", "x", "", false, false⟩,
        .ofBool ⟨"c", "", "", false, false⟩] : List flag.Flag).map flag.Flag.Name).Nodup ∧
      ¬ ((flag.Add (Command.fresh "app")
            [.ofBool ⟨"a", "x", "", false, false⟩, .ofBool ⟨"b", "x", "", false, false⟩,
              .ofBool ⟨"c", "", "", false, false⟩]).state.Flags.formal.length = 3 ∧
          (flag.Add (Command.fresh "app")
            [.ofBool ⟨"a", "x", "", false, false⟩, .ofBool ⟨"b", "x", "", false, false⟩,
              .ofBool ⟨"c", "", "", false, false⟩]).state.Flags.flagNamed "c" ≠ none)) ∧
    ((([.ofBool ⟨"a", "xy", "", false, false⟩, .ofBool ⟨"c", "", "", false, false⟩] :
        List flag.Flag).map flag.Flag.Name).Nodup ∧
      ¬ ((flag.Add (Command.fresh "app")
            [.ofBool ⟨"a", "xy", "", false, false⟩,
              .ofBool ⟨"c", "", "", false, false⟩]).state.Flags.formal.length = 2 ∧
          (flag.Add (Command.fresh "app")
            [.ofBool ⟨"a", "xy", "", false, false⟩,
              .ofBool ⟨"c", "", "", false, false⟩]).state.Flags.flagNamed "c" ≠ none)) := by
  decide

/-- C4, amended: for every sequence of N descriptors whose names are pairwise
distinct, whose shorthands are at most one byte long and whose non-empty shorthands
are pairwise distinct, `Add` on a fresh command returns, the command holds exactly N
flags (by name and in the registration order), and the flag found under the name of
each descriptor is the record of that descriptor: its name, shorthand, description,
default and hidden mark. -/
theorem add_registers_each (ds : List flag.Flag) (use : String)
    (hnames : (ds.map flag.Flag.Name).Nodup)
    (hlen : ∀ d ∈ ds, goLen d.Shorthand ≤ 1)
    (hshort : ((ds.map flag.Flag.Shorthand).filter fun s => decide (s ≠ "")).Nodup) :
    ∃ cmd', flag.Add (Command.fresh use) ds = .done cmd' ∧
      cmd'.Flags.formal.length = ds.length ∧
      cmd'.Flags.orderedFormal.length = ds.length ∧
      ∀ d ∈ ds, cmd'.Flags.flagNamed d.Name = some d.object := by
  obtain ⟨cmd', hdone, hflags⟩ := flag.Add_done ds (Command.fresh use)
    (fun d _ => flag.fresh_formal use d.Name) hnames hlen (fun _ _ _ _ => rfl)
    (flag.keys_nodup ds hlen hshort)
  refine ⟨cmd', hdone, ?_, ?_, ?_⟩
  · rw [hflags, flag.recordAll_formal_length]
    simp [flag.Flags_fresh, NewFlagSet]
  · rw [hflags, flag.recordAll_orderedFormal]
    simp [flag.Flags_fresh, NewFlagSet]
  · intro d hd
    rw [hflags]
    exact flag.recordAll_flagNamed ds _ (WF_new _) hnames d hd

/-- Witness of the amended C4: the constructors `Yes` and `Org`. -/
theorem add_registers_each_witness :
    (([.ofBool flag.Yes, .ofString flag.Org] : List flag.Flag).map flag.Flag.Name).Nodup ∧
    (∀ d ∈ ([.ofBool flag.Yes, .ofString flag.Org] : List flag.Flag), goLen d.Shorthand ≤ 1) ∧
    ((([.ofBool flag.Yes, .ofString flag.Org] : List flag.Flag).map flag.Flag.Shorthand).filter
      fun s => decide (s ≠ "")).Nodup ∧
    ∃ cmd', flag.Add (Command.fresh "app") [.ofBool flag.Yes, .ofString flag.Org] = .done cmd' ∧
      cmd'.Flags.formal.length = ([.ofBool flag.Yes, .ofString flag.Org] : List flag.Flag).length ∧
      cmd'.Flags.orderedFormal.length
        = ([.ofBool flag.Yes, .ofString flag.Org] : List flag.Flag).length ∧
      ∀ d ∈ ([.ofBool flag.Yes, .ofString flag.Org] : List flag.Flag),
        cmd'.Flags.flagNamed d.Name = some d.object :=
  ⟨by decide, by decide, by decide,
    add_registers_each [.ofBool flag.Yes, .ofString flag.Org] "app" (by decide) (by decide)
      (by decide)⟩

/-- C5: `Add` is the left fold of `addTo` over the sequence, each `addTo` running on
the command the previous one left and none running after a panic.  So `Add` with the
empty sequence returns the command unchanged and `Add` on `xs ++ ys` is `Add` on `xs`
followed by `Add` on `ys`.  In the registration order of the command the names of the
new flags follow the order of the descriptors: they are a prefix of the names of the
descriptors in every outcome, and when `Add` returns the new flags are the records of
all the descriptors, in their order, after the flags the command held before. -/
theorem add_is_fold :
    (∀ (cmd : Command) (ds : List flag.Flag),
      flag.Add cmd ds
        = ds.foldl (fun (r : Result Command) d => r.andThen fun c => d.addTo c) (.done cmd)) ∧
    (∀ cmd : Command, flag.Add cmd [] = .done cmd) ∧
    (∀ (cmd : Command) (xs ys : List flag.Flag),
      flag.Add cmd (xs ++ ys) = (flag.Add cmd xs).andThen fun c => flag.Add c ys) ∧
    (∀ (cmd : Command) (ds : List flag.Flag),
      ((flag.Add cmd ds).state.Flags.orderedFlags.drop cmd.Flags.orderedFormal.length).map
          (fun o => o.map fun x => x.Name)
        <+: ds.map fun d => some d.Name) ∧
    (∀ (cmd cmd' : Command) (ds : List flag.Flag), flag.Add cmd ds = .done cmd' →
      cmd'.Flags.orderedFormal.take cmd.Flags.orderedFormal.length = cmd.Flags.orderedFormal ∧
      cmd'.Flags.orderedFlags.drop cmd.Flags.orderedFormal.length
        = ds.map fun d => some d.object) := by
  refine ⟨fun cmd ds => flag.Add_eq_foldl ds cmd, fun cmd => rfl,
    fun cmd xs ys => flag.Add_append xs ys cmd, fun cmd ds => flag.Add_listing_prefix ds cmd,
    fun cmd cmd' ds h => ?_⟩
  have hflags := flag.Add_done_inv ds cmd cmd' h
  rw [hflags]
  refine ⟨?_, flag.recordAll_orderedFlags ds _⟩
  rw [flag.recordAll_orderedFormal, List.take_left' rfl]

/-- Witness of C5: `Add` of `Yes`, `Org` on a fresh command returns, and the listing
in registration order is `Yes`, `Org`. -/
theorem add_is_fold_witness :
    flag.Add (Command.fresh "app") [.ofBool flag.Yes, .ofString flag.Org]
      = .done ((flag.Add (Command.fresh "app") [.ofBool flag.Yes, .ofString flag.Org]).state) ∧
    ((flag.Add (Command.fresh "app")
        [.ofBool flag.Yes, .ofString flag.Org]).state.Flags.orderedFormal.take
          (Command.fresh "app").Flags.orderedFormal.length
        = (Command.fresh "app").Flags.orderedFormal ∧
      (flag.Add (Command.fresh "app")
        [.ofBool flag.Yes, .ofString flag.Org]).state.Flags.orderedFlags.drop
          (Command.fresh "app").Flags.orderedFormal.length
        = ([.ofBool flag.Yes, .ofString flag.Org] : List flag.Flag).map
            fun d => some d.object) :=
  ⟨by decide, add_is_fold.2.2.2.2 (Command.fresh "app") _ [.ofBool flag.Yes, .ofString flag.Org]
    (by decide)⟩

/-- C6, as stated, fails: on the command that holds the flag `b` with the shorthand
`x`, `Add` of two Bool descriptors named `a`, the first with the shorthand `x`, does
not end in the duplicate-name failure: the registry refuses the first descriptor
because its shorthand is in use. -/
theorem add_duplicate_counterexample :
    (flag.Flag.ofBool ⟨"a", "x", "", false, false⟩).Name
      = (flag.Flag.ofBool ⟨"a", "", "", false, false⟩).Name ∧
    ¬ ((flag.Add (flag.Add (Command.fresh "app") [.ofBool ⟨"b", "x", "", false, false⟩]).state
          [.ofBool ⟨"a", "x", "", false, false⟩, .ofBool ⟨"a", "", "", false, false⟩]).panic?
        = some (.flagRedefined "app" "a")) := by
  decide

/-- C6, amended: for every command and every two descriptors with the same name,
`Add` of the two never returns normally; it ends in a panic of the registry, which
the layer passes on.  When the registration of the first descriptor is accepted, the
panic is the duplicate-name failure raised for the second one: the outcome of
registering the second descriptor directly on the command that holds the first, and
what `AddFlag` of the registry answers there.  When the registry refuses the first
descriptor, `Add` ends in that failure. -/
theorem add_duplicate_name (cmd : Command) (d1 d2 : flag.Flag) (hname : d1.Name = d2.Name) :
    (∃ p, (flag.Add cmd [d1, d2]).panic? = some p) ∧
    (∀ cmd1, d1.addTo cmd = .done cmd1 →
      flag.Add cmd [d1, d2] = .panicked (.flagRedefined cmd1.Flags.name d2.Name) cmd1 ∧
      d2.addTo cmd1 = .panicked (.flagRedefined cmd1.Flags.name d2.Name) cmd1 ∧
      cmd1.Flags.AddFlag d2.object
        = .panicked (.flagRedefined cmd1.Flags.name d2.Name) cmd1.Flags) ∧
    (∀ p cmd1, d1.addTo cmd = .panicked p cmd1 →
      flag.Add cmd [d1, d2] = .panicked p cmd1) := by
  have hsecond : ∀ cmd1, d1.addTo cmd = .done cmd1 →
      d2.addTo cmd1 = .panicked (.flagRedefined cmd1.Flags.name d2.Name) cmd1 := by
    intro cmd1 h1
    have hq := flag.formal_of_done d1 cmd cmd1 h1
    rw [hname] at hq
    rw [flag.addTo_present d2 cmd1 _ hq, flag.withFlags_Flags_of_done d1 cmd cmd1 h1]
  have hfirst : ∀ cmd1, d1.addTo cmd = .done cmd1 →
      flag.Add cmd [d1, d2] = .panicked (.flagRedefined cmd1.Flags.name d2.Name) cmd1 := by
    intro cmd1 h1
    rw [flag.Add_cons_done _ _ _ _ h1, flag.Add_cons_panicked _ _ _ _ _ (hsecond cmd1 h1)]
  refine ⟨?_, fun cmd1 h1 => ⟨hfirst cmd1 h1, hsecond cmd1 h1, ?_⟩, fun p cmd1 h1 => ?_⟩
  · cases h1 : d1.addTo cmd with
    | done cmd1 => exact ⟨_, by rw [hfirst cmd1 h1]; rfl⟩
    | panicked p cmd1 => exact ⟨p, by rw [flag.Add_cons_panicked _ _ _ _ _ h1]; rfl⟩
  · have hq := flag.formal_of_done d1 cmd cmd1 h1
    rw [hname] at hq
    exact AddFlag_present cmd1.Flags d2.object _ hq
  · exact flag.Add_cons_panicked _ _ _ _ _ h1

/-- Witness of the amended C6: `Yes` and an Int descriptor that is also named `yes`. -/
theorem add_duplicate_name_witness :
    (flag.Flag.ofBool flag.Yes).Name
      = (flag.Flag.ofInt ⟨"yes", "", "How often", 3, false⟩).Name ∧
    (flag.Add (Command.fresh "app")
        [.ofBool flag.Yes, .ofInt ⟨"yes", "", "How often", 3, false⟩]).panic?
      = some (.flagRedefined "app" "yes") :=
  ⟨by decide, by
    have h := (add_duplicate_name (Command.fresh "app") (.ofBool flag.Yes)
      (.ofInt ⟨"yes", "", "How often", 3, false⟩) (by decide)).2.1 _ rfl
    rw [h.1]
    rfl⟩

/-- C7: the constructors yield the stated flags on a fresh command.  `Yes` gives the
flag `yes` with the shorthand `y`, the default false, visible, and `y` looks it up;
`Org` gives the flag `org` with no shorthand and the empty default; `RemoteOnly` gives
the flag `remote-only` with the default true; `Now` and `NoDeploy` together give the
two flags `now` and `no-deploy`, each with the default false.  The nine constructors
carry the nine names listed, which are pairwise distinct, and `Add` of all nine
returns with nine flags, each found under its name. -/
theorem constructors_register (use : String) :
    ((flag.Yes.addTo (Command.fresh use)).panic? = none ∧
      (flag.Yes.addTo (Command.fresh use)).state.Flags.flagNamed "yes"
        = some ⟨"yes", "y", "Accept all confirmations", .boolValue false, false⟩ ∧
      (flag.Yes.addTo (Command.fresh use)).state.Flags.flagShort "y"
        = .ok (some ⟨"yes", "y", "Accept all confirmations", .boolValue false, false⟩)) ∧
    ((flag.Org.addTo (Command.fresh use)).panic? = none ∧
      (flag.Org.addTo (Command.fresh use)).state.Flags.flagNamed "org"
        = some ⟨"org", "", "The organization to operate on", .stringValue "", false⟩ ∧
      (flag.Org.addTo (Command.fresh use)).state.Flags.shorthands = []) ∧
    ((flag.RemoteOnly.addTo (Command.fresh use)).panic? = none ∧
      ((flag.RemoteOnly.addTo (Command.fresh use)).state.Flags.flagNamed "remote-only").map
          (fun o => o.Value) = some (.boolValue true)) ∧
    ((flag.Add (Command.fresh use) [.ofBool flag.Now, .ofBool flag.NoDeploy]).panic? = none ∧
      (flag.Add (Command.fresh use)
          [.ofBool flag.Now, .ofBool flag.NoDeploy]).state.Flags.flagNamed "now"
        = some ⟨"now", "", "Deploy now without confirmation", .boolValue false, false⟩ ∧
      (flag.Add (Command.fresh use)
          [.ofBool flag.Now, .ofBool flag.NoDeploy]).state.Flags.flagNamed "no-deploy"
        = some ⟨"no-deploy", "", "Do not prompt for deployment", .boolValue false, false⟩) ∧
    (([.ofString flag.Org, .ofBool flag.Yes, .ofString flag.AppName, .ofString flag.Region,
        .ofString flag.Image, .ofBool flag.Now, .ofBool flag.NoDeploy, .ofBool flag.GenerateName,
        .ofBool flag.RemoteOnly] : List flag.Flag).map flag.Flag.Name
      = ["org", "yes", "name", "region", "image", "now", "no-deploy", "generate-name",
          "remote-only"]) ∧
    (["org", "yes", "name", "region", "image", "now", "no-deploy", "generate-name",
        "remote-only"] : List String).Nodup ∧
    (∃ cmd', flag.Add (Command.fresh use)
        [.ofString flag.Org, .ofBool flag.Yes, .ofString flag.AppName, .ofString flag.Region,
          .ofString flag.Image, .ofBool flag.Now, .ofBool flag.NoDeploy,
          .ofBool flag.GenerateName, .ofBool flag.RemoteOnly] = .done cmd' ∧
      cmd'.Flags.formal.length = 9 ∧
      ∀ d ∈ ([.ofString flag.Org, .ofBool flag.Yes, .ofString flag.AppName,
          .ofString flag.Region, .ofString flag.Image, .ofBool flag.Now, .ofBool flag.NoDeploy,
          .ofBool flag.GenerateName, .ofBool flag.RemoteOnly] : List flag.Flag),
        cmd'.Flags.flagNamed d.Name = some d.object) := by
  refine ⟨⟨rfl, rfl, rfl⟩, ⟨rfl, rfl, rfl⟩, ⟨rfl, rfl⟩, ⟨rfl, rfl, rfl⟩, by decide, by decide, ?_⟩
  obtain ⟨cmd', hdone, hflags⟩ := flag.Add_done
    [.ofString flag.Org, .ofBool flag.Yes, .ofString flag.AppName, .ofString flag.Region,
      .ofString flag.Image, .ofBool flag.Now, .ofBool flag.NoDeploy, .ofBool flag.GenerateName,
      .ofBool flag.RemoteOnly] (Command.fresh use)
    (fun d _ => flag.fresh_formal use d.Name) (by decide) (by decide) (fun _ _ _ _ => rfl)
    (by decide)
  refine ⟨cmd', hdone, ?_, ?_⟩
  · rw [hflags, flag.recordAll_formal_length]
    rfl
  · intro d hd
    rw [hflags]
    exact flag.recordAll_flagNamed _ _ (WF_new _) (by decide) d hd

/-- C8, as stated, fails.  Two Bool descriptors with the distinct names `a` and `b`
and the same shorthand `x`: in the order `a`, `b` the shorthand `x` looks up the flag
`a`; in the order `b`, `a` it looks up the flag `b`.  Two Bool descriptors with the
distinct names `a` and `b`, of which `a` has the shorthand `xy`: in the order `a`,
`b` the name `b` looks up nothing; in the order `b`, `a` it looks up the flag `b`. -/
theorem add_order_counterexample :
    (([.ofBool ⟨"a", "x", "", false, false⟩, .ofBool ⟨"b", "x", "", false, false⟩] :
          List flag.Flag).Perm
        [.ofBool ⟨"b", "x", "", false, false⟩, .ofBool ⟨"a", "x", "", false, false⟩] ∧
      (([.ofBool ⟨"a", "x", "", false, false⟩, .ofBool ⟨"b", "x", "", false, false⟩] :
          List flag.Flag).map flag.Flag.Name).Nodup ∧
      ¬ ((flag.Add (Command.fresh "app")
            [.ofBool ⟨"a", "x", "", false, false⟩,
              .ofBool ⟨"b", "x", "", false, false⟩]).state.Flags.flagShort "x"
          = (flag.Add (Command.fresh "app")
            [.ofBool ⟨"b", "x", "", false, false⟩,
              .ofBool ⟨"a", "x", "", false, false⟩]).state.Flags.flagShort "x")) ∧
    (([.ofBool ⟨"a", "xy", "", false, false⟩, .ofBool ⟨"b", "", "", false, false⟩] :
          List flag.Flag).Perm
        [.ofBool ⟨"b", "", "", false, false⟩, .ofBool ⟨"a", "xy", "", false, false⟩] ∧
      (([.ofBool ⟨"a", "xy", "", false, false⟩, .ofBool ⟨"b", "", "", false, false⟩] :
          List flag.Flag).map flag.Flag.Name).Nodup ∧
      ¬ ((flag.Add (Command.fresh "app")
            [.ofBool ⟨"a", "xy", "", false, false⟩,
              .ofBool ⟨"b", "", "", false, false⟩]).state.Flags.flagNamed "b"
          = (flag.Add (Command.fresh "app")
            [.ofBool ⟨"b", "", "", false, false⟩,
              .ofBool ⟨"a", "xy", "", false, false⟩]).state.Flags.flagNamed "b")) :=
  ⟨⟨List.Perm.swap _ _ _, by decide, by decide⟩, ⟨List.Perm.swap _ _ _, by decide, by decide⟩⟩

/-- C8, amended: for every sequence of descriptors whose names are pairwise distinct,
whose shorthands are at most one byte long and whose non-empty shorthands are
pairwise distinct, and for every permutation of it, `Add` on the same fresh command
returns for both orders, and in the two resulting commands every name looks up the
same flag (name, shorthand, description, typed default, hidden mark) and every
shorthand looks up the same flag. -/
theorem add_order_independent (ds ds' : List flag.Flag) (use : String)
    (hperm : ds.Perm ds')
    (hnames : (ds.map flag.Flag.Name).Nodup)
    (hlen : ∀ d ∈ ds, goLen d.Shorthand ≤ 1)
    (hshort : ((ds.map flag.Flag.Shorthand).filter fun s => decide (s ≠ "")).Nodup) :
    ∃ cmd1 cmd2, flag.Add (Command.fresh use) ds = .done cmd1 ∧
      flag.Add (Command.fresh use) ds' = .done cmd2 ∧
      (∀ n, cmd1.Flags.flagNamed n = cmd2.Flags.flagNamed n) ∧
      (∀ sh, cmd1.Flags.flagShort sh = cmd2.Flags.flagShort sh) := by
  have hkeys := flag.keys_nodup ds hlen hshort
  have hnames' : (ds'.map flag.Flag.Name).Nodup := (hperm.map flag.Flag.Name).nodup_iff.1 hnames
  have hlen' : ∀ d ∈ ds', goLen d.Shorthand ≤ 1 := fun d hd => hlen d (hperm.mem_iff.2 hd)
  have hkeys' : (ds'.filterMap fun d => shortKey d.Shorthand).Nodup :=
    (hperm.filterMap _).nodup_iff.1 hkeys
  obtain ⟨cmd1, hdone1, hflags1⟩ := flag.Add_done ds (Command.fresh use)
    (fun d _ => flag.fresh_formal use d.Name) hnames hlen (fun _ _ _ _ => rfl) hkeys
  obtain ⟨cmd2, hdone2, hflags2⟩ := flag.Add_done ds' (Command.fresh use)
    (fun d _ => flag.fresh_formal use d.Name) hnames' hlen' (fun _ _ _ _ => rfl) hkeys'
  refine ⟨cmd1, cmd2, hdone1, hdone2, ?_, ?_⟩
  · intro n
    rw [hflags1, hflags2]
    exact flag.recordAll_flagNamed_perm ds ds' _ (WF_new _) hperm hnames n
  · intro sh
    rw [hflags1, hflags2]
    exact flag.flagShort_congr _ _
      (fun c => flag.recordAll_flagAt_perm ds ds' _ (WF_new _) hperm hkeys c) sh

/-- Witness of the amended C8: `Yes`, `Org` and the reverse order. -/
theorem add_order_independent_witness :
    ([.ofBool flag.Yes, .ofString flag.Org] : List flag.Flag).Perm
      [.ofString flag.Org, .ofBool flag.Yes] ∧
    (([.ofBool flag.Yes, .ofString flag.Org] : List flag.Flag).map flag.Flag.Name).Nodup ∧
    (∀ d ∈ ([.ofBool flag.Yes, .ofString flag.Org] : List flag.Flag), goLen d.Shorthand ≤ 1) ∧
    ((([.ofBool flag.Yes, .ofString flag.Org] : List flag.Flag).map flag.Flag.Shorthand).filter
      fun s => decide (s ≠ "")).Nodup ∧
    ∃ cmd1 cmd2,
      flag.Add (Command.fresh "app") [.ofBool flag.Yes, .ofString flag.Org] = .done cmd1 ∧
      flag.Add (Command.fresh "app") [.ofString flag.Org, .ofBool flag.Yes] = .done cmd2 ∧
      (∀ n, cmd1.Flags.flagNamed n = cmd2.Flags.flagNamed n) ∧
      (∀ sh, cmd1.Flags.flagShort sh = cmd2.Flags.flagShort sh) :=
  ⟨List.Perm.swap _ _ _, by decide, by decide, by decide,
    add_order_independent [.ofBool flag.Yes, .ofString flag.Org]
      [.ofString flag.Org, .ofBool flag.Yes] "app" (List.Perm.swap _ _ _) (by decide) (by decide)
      (by decide)⟩

/-- C9: `ConfName` and `EnvName` take no part in registration.  On every command, a
String descriptor and the same descriptor with any other `ConfName` and `EnvName`
have the same outcome of `addTo`, and so have two such StringSlice descriptors.  The
one call that `addTo` makes to register is `AddFlag` of the registry with the name,
shorthand, description and default of the descriptor, and when the name is not yet
registered on the command, the flag left under the name has the default of the
descriptor as its value. -/
theorem aliases_not_registered :
    (∀ (cmd : Command) (s : flag.String) (conf env : String),
      flag.String.addTo { s with ConfName := conf, EnvName := env } cmd = s.addTo cmd) ∧
    (∀ (cmd : Command) (ss : flag.StringSlice) (conf env : String),
      flag.StringSlice.addTo { ss with ConfName := conf, EnvName := env } cmd = ss.addTo cmd) ∧
    (∀ (cmd : Command) (s : flag.String),
      s.addTo cmd = Result.lift cmd.withFlags
        ((cmd.Flags.AddFlag
            ⟨s.Name, s.Shorthand, s.Description, .stringValue s.Default, false⟩).andThen
          fun f => f.assignHidden (f.Lookup s.Name) s.Hidden)) ∧
    (∀ (cmd : Command) (ss : flag.StringSlice),
      ss.addTo cmd = Result.lift cmd.withFlags
        (cmd.Flags.AddFlag
          ⟨ss.Name, ss.Shorthand, ss.Description, .stringSliceValue ss.Default, false⟩)) ∧
    (∀ (cmd : Command) (s : flag.String), cmd.Flags.Lookup s.Name = none →
      ∃ o, (s.addTo cmd).state.Flags.flagNamed s.Name = some o ∧
        o.Value = .stringValue s.Default) ∧
    (∀ (cmd : Command) (ss : flag.StringSlice), cmd.Flags.Lookup ss.Name = none →
      ∃ o, (ss.addTo cmd).state.Flags.flagNamed ss.Name = some o ∧
        o.Value = .stringSliceValue ss.Default) := by
  refine ⟨fun _ _ _ _ => rfl, fun _ _ _ _ => rfl, fun cmd s => ?_, fun cmd ss => ?_,
    fun cmd s h => ?_, fun cmd ss h => ?_⟩
  · simp only [flag.String.addTo, flag.StringP_branch]
  · simp only [flag.StringSlice.addTo, flag.StringSliceP_branch]
  · obtain ⟨o, h1, h2, -⟩ := flag.addTo_new_flagNamed (.ofString s) cmd h
    exact ⟨o, h1, h2⟩
  · obtain ⟨o, h1, h2, -⟩ := flag.addTo_new_flagNamed (.ofStringSlice ss) cmd h
    exact ⟨o, h1, h2⟩

/-- Witness of C9: a String descriptor with aliases on the command that holds `yes`. -/
theorem aliases_not_registered_witness :
    (flag.Yes.addTo (Command.fresh "app")).state.Flags.Lookup
        (⟨"org", "o", "The organization", "personal", "org", "FLY_ORG", false⟩ :
          flag.String).Name = none ∧
    ∃ o, (flag.String.addTo ⟨"org", "o", "The organization", "personal", "org", "FLY_ORG", false⟩
          (flag.Yes.addTo (Command.fresh "app")).state).state.Flags.flagNamed
        (⟨"org", "o", "The organization", "personal", "org", "FLY_ORG", false⟩ :
          flag.String).Name = some o ∧
      o.Value = .stringValue
        (⟨"org", "o", "The organization", "personal", "org", "FLY_ORG", false⟩ :
          flag.String).Default :=
  ⟨by decide, aliases_not_registered.2.2.2.2.1 (flag.Yes.addTo (Command.fresh "app")).state
    ⟨"org", "o", "The organization", "personal", "org", "FLY_ORG", false⟩ (by decide)⟩

/-- C10, as stated, fails.  On a fresh command the Bool descriptor `secret` with the
shorthand `é` meets the three stated conditions: the name is not registered, the
shorthand is one character long and no shorthand is in use.  Yet `é` takes two
bytes, the registry panics on it and `addTo` does not return. -/
theorem addTo_lookup_counterexample :
    (Command.fresh "app").Flags.Lookup "secret" = none ∧
    ("é" : String).length ≤ 1 ∧
    (Command.fresh "app").Flags.shorthands = [] ∧
    (flag.Bool.addTo ⟨"secret", "é", "Internal", false, true⟩ (Command.fresh "app")).panic?
      = some (.shorthandTooLong "é") ∧
    ¬ ∃ cmd',
      flag.Bool.addTo ⟨"secret", "é", "Internal", false, true⟩ (Command.fresh "app")
        = .done cmd' := by
  refine ⟨by decide, by decide, by decide, by decide, ?_⟩
  rintro ⟨cmd', h⟩
  have hv : (flag.Bool.addTo ⟨"secret", "é", "Internal", false, true⟩
      (Command.fresh "app")).panic? = some (.shorthandTooLong "é") := by decide
  rw [h] at hv
  cases hv

/-- C10, amended: for every command and every descriptor that the registry accepts
(the name is not registered on the command, the shorthand is at most one byte long
and the lookup by the shorthand finds nothing), `addTo` returns without a panic, the
lookup by the name on the resulting flag set returns the pointer to the flag
registered by this call, and that flag is the record of the descriptor, hidden mark
included; so the assignment to `Hidden` in `Bool.addTo`, `String.addTo` and
`Int.addTo` is never made through a `nil` pointer. -/
theorem addTo_lookup_finds (cmd : Command) (d : flag.Flag)
    (hname : cmd.Flags.Lookup d.Name = none)
    (hlen : goLen d.Shorthand ≤ 1)
    (hfree : cmd.Flags.ShorthandLookup d.Shorthand = .ok none) :
    ∃ cmd', d.addTo cmd = .done cmd' ∧
      cmd'.Flags.Lookup d.Name = some cmd.Flags.objs.length ∧
      cmd.Flags.deref cmd.Flags.objs.length = none ∧
      cmd'.Flags.deref cmd.Flags.objs.length = some d.object := by
  have ht := flag.takes_of_ShorthandLookup _ _ hlen hfree
  refine ⟨_, flag.addTo_taken d cmd hname ht, ?_, ?_, ?_⟩
  · exact flag.Lookup_record_self cmd.Flags d.object (shortKey d.Shorthand)
  · simp [FlagSet.deref]
  · exact deref_record_new _ _ _

/-- Witness of the amended C10: a hidden Int descriptor on the command that holds `yes`. -/
theorem addTo_lookup_finds_witness :
    (flag.Yes.addTo (Command.fresh "app")).state.Flags.Lookup
        (flag.Flag.ofInt ⟨"count", "c", "How many", 3, true⟩).Name = none ∧
    goLen (flag.Flag.ofInt ⟨"count", "c", "How many", 3, true⟩).Shorthand ≤ 1 ∧
    (flag.Yes.addTo (Command.fresh "app")).state.Flags.ShorthandLookup
        (flag.Flag.ofInt ⟨"count", "c", "How many", 3, true⟩).Shorthand = .ok none ∧
    ∃ cmd', (flag.Flag.ofInt ⟨"count", "c", "How many", 3, true⟩).addTo
        (flag.Yes.addTo (Command.fresh "app")).state = .done cmd' ∧
      cmd'.Flags.Lookup (flag.Flag.ofInt ⟨"count", "c", "How many", 3, true⟩).Name
        = some (flag.Yes.addTo (Command.fresh "app")).state.Flags.objs.length ∧
      (flag.Yes.addTo (Command.fresh "app")).state.Flags.deref
        (flag.Yes.addTo (Command.fresh "app")).state.Flags.objs.length = none ∧
      cmd'.Flags.deref (flag.Yes.addTo (Command.fresh "app")).state.Flags.objs.length
        = some (flag.Flag.ofInt ⟨"count", "c", "How many", 3, true⟩).object :=
  ⟨by decide, by decide, by decide,
    addTo_lookup_finds (flag.Yes.addTo (Command.fresh "app")).state
      (.ofInt ⟨"count", "c", "How many", 3, true⟩) (by decide) (by decide) (by decide)⟩
